import Mathlib

/-!
Verification development for the MessageTorch LED-torch firmware
(final revision of the program: the `p44_ws2812` LED driver class, the
torch energy simulation, the scrolling-text compositor and the
parameter-update entry point).

All definitions are shallow embeddings of the C++ source.  C integer
semantics are made explicit: `byte` (uint8_t) stores truncate modulo 256,
`uint16_t` stores truncate modulo 65536, and `int` arithmetic is exact
(width 32 is never exceeded by the values the claims range over).
Arrays indexed with possibly-negative C expressions are modelled as total
functions from `ℤ`.
-/

-- ==========================================================================
-- p44_ws2812 LED driver (declaration lines 2141-2227, implementation
-- lines 2234-2442 of the final revision)
-- ==========================================================================

/-- `p44_ws2812::LedType`. -/
inductive LedType where
  | ws2811_brg : LedType
  | ws2812 : LedType
deriving DecidableEq

/-- The fields of class `p44_ws2812` that the mapping and the frame
serialisation read (`ledType`, `numLeds`, `ledsPerPixel`, `numPixels`,
`pixelsPerRow`, `numRows` and the four topology flags). -/
structure Driver where
  ledType : LedType
  numLeds : ℕ
  ledsPerPixel : ℕ
  numPixels : ℕ
  pixelsPerRow : ℕ
  numRows : ℕ
  xReversed : Bool
  alternating : Bool
  swapXY : Bool
  yReversed : Bool
deriving DecidableEq

/-- The `p44_ws2812` constructor (lines 2236-2259): `ledsPerPixel` is
floored at 1, `numPixels = numLeds/ledsPerPixel`, and for
`aPixelsPerRow = 0` a single row is used, otherwise
`numRows = (numPixels-1)/pixelsPerRow+1` (C `int` division; for
`numPixels = 0` the C expression `(-1)/p + 1` also yields `1`, matching
the `ℕ` value below only when `numPixels ≥ 1`, and no claim uses
`numPixels = 0` with `aPixelsPerRow ≠ 0`). -/
def mkDriver (t : LedType) (aNumLeds aPixelsPerRow : ℕ)
    (aXReversed aAlternating aSwapXY aYReversed : Bool) (aLedsPerPixel : ℕ) : Driver :=
  let lpp := if aLedsPerPixel < 1 then 1 else aLedsPerPixel
  let np := aNumLeds / lpp
  { ledType := t
    numLeds := aNumLeds
    ledsPerPixel := lpp
    numPixels := np
    pixelsPerRow := if aPixelsPerRow = 0 then np else aPixelsPerRow
    numRows := if aPixelsPerRow = 0 then 1 else (np - 1) / aPixelsPerRow + 1
    xReversed := aXReversed
    alternating := aAlternating
    swapXY := aSwapXY
    yReversed := aYReversed }

/-- `p44_ws2812::getSizeX` (lines 2274-2277). -/
def getSizeX (d : Driver) : ℕ := if d.swapXY then d.numRows else d.pixelsPerRow

/-- `p44_ws2812::getSizeY` (lines 2280-2283). -/
def getSizeY (d : Driver) : ℕ := if d.swapXY then d.pixelsPerRow else d.numRows

/-- `p44_ws2812::ledIndexFromXY` (lines 2372-2388).  Arguments are
`uint16_t`; each store into a `uint16_t` variable truncates modulo
65536 (the `aY = numRows-1-aY` and `ledindex += pixelsPerRow-1-aX`
assignments compute in `int` and can be negative, hence the `ℤ` detour). -/
def ledIndexFromXY (d : Driver) (aX aY : ℕ) : ℕ :=
  let x0 := aX % 65536
  let y0 := aY % 65536
  let x1 := if d.swapXY then y0 else x0
  let y1 := if d.swapXY then x0 else y0
  let y2 := if d.yReversed then (((d.numRows : ℤ) - 1 - (y1 : ℤ)) % 65536).toNat else y1
  let led0 := y2 * d.pixelsPerRow % 65536
  let rev := xor d.xReversed (d.alternating && decide (y2 % 2 = 1))
  if rev then (((led0 : ℤ) + (d.pixelsPerRow : ℤ) - 1 - (x1 : ℤ)) % 65536).toNat
  else (led0 + x1) % 65536

/-- One `RGBPixel` of the pixel buffer: three 5-bit bitfields. -/
structure RGBPixel where
  red : ℕ
  green : ℕ
  blue : ℕ
deriving DecidableEq

/-- The all-zero buffer the constructor produces with `memset` (line 2257). -/
def freshBuffer : ℕ → RGBPixel := fun _ => ⟨0, 0, 0⟩

/-- `p44_ws2812::setColorXY` (lines 2391-2400): no write when the
computed index reaches `numPixels`; otherwise each 8-bit channel is
stored right-shifted by 3 into a 5-bit bitfield. -/
def setColorXY (d : Driver) (buf : ℕ → RGBPixel) (aX aY r g b : ℕ) : ℕ → RGBPixel :=
  let ledindex := ledIndexFromXY d aX aY
  if d.numPixels ≤ ledindex then buf
  else fun j => if j = ledindex then ⟨r % 256 / 8 % 32, g % 256 / 8 % 32, b % 256 / 8 % 32⟩ else buf j

/-- `p44_ws2812::getColorXY` (lines 2433-2442): when the computed index
reaches `numPixels` the reference parameters are left untouched (modelled
by returning `refs` unchanged); otherwise each 5-bit channel is returned
left-shifted by 3. -/
def getColorXY (d : Driver) (buf : ℕ → RGBPixel) (aX aY : ℕ) (refs : ℕ × ℕ × ℕ) : ℕ × ℕ × ℕ :=
  let ledindex := ledIndexFromXY d aX aY
  if d.numPixels ≤ ledindex then refs
  else ((buf ledindex).red * 8 % 256, (buf ledindex).green * 8 % 256, (buf ledindex).blue * 8 % 256)

-- ==========================================================================
-- Frame serialisation: p44_ws2812::show (lines 2304-2369)
-- ==========================================================================

/-- `pwmTable` (line 2234): 32-entry 5-bit-linear to 8-bit-PWM table. -/
def pwmTable : List ℕ :=
  [0, 1, 1, 2, 3, 4, 6, 7, 9, 10, 13, 15, 18, 21, 24, 28, 33, 38, 44, 50,
   58, 67, 77, 88, 101, 115, 132, 150, 172, 196, 224, 255]

/-- `pwmTable[i]` lookup. -/
def pwmAt (i : ℕ) : ℕ := pwmTable.getD i 0

/-- The inner `for (byte j=0; j<8; j++)` loop of `show`: emit `n` SPI
bytes from byte `b`, most significant bit first, `hi` for a set bit and
`lo` for a clear bit, shifting `b` left (with byte truncation) each step. -/
def spiBytesOfByte (hi lo : ℕ) : ℕ → ℕ → List ℕ
  | 0, _ => []
  | n + 1, b => (if 128 ≤ b % 256 then hi else lo) :: spiBytesOfByte hi lo n (b * 2 % 256)

/-- One pixel repetition in the `ws2811_brg` arm of `show`: channels in
B,R,G order, pulse bytes `0x7C`/`0x40`. -/
def brgPixelBytes (p : RGBPixel) : List ℕ :=
  spiBytesOfByte 0x7C 0x40 8 (pwmAt p.blue) ++
  spiBytesOfByte 0x7C 0x40 8 (pwmAt p.red) ++
  spiBytesOfByte 0x7C 0x40 8 (pwmAt p.green)

/-- One pixel repetition in the `ws2812` arm of `show`: channels in
G,R,B order, pulse bytes `0x7E`/`0x70`. -/
def grbPixelBytes (p : RGBPixel) : List ℕ :=
  spiBytesOfByte 0x7E 0x70 8 (pwmAt p.green) ++
  spiBytesOfByte 0x7E 0x70 8 (pwmAt p.red) ++
  spiBytesOfByte 0x7E 0x70 8 (pwmAt p.blue)

/-- The full double loop of one `show` arm (pixels 0..numPixels-1, each
repeated `ledsPerPixel` times). -/
def showPass (d : Driver) (buf : ℕ → RGBPixel) (pix : RGBPixel → List ℕ) : List ℕ :=
  (List.range d.numPixels).flatMap fun i =>
    (List.range d.ledsPerPixel).flatMap fun _ => pix (buf i)

/-- `p44_ws2812::show` (lines 2304-2369), as the sequence of bytes passed
to `SPI.transfer`.  The `case ws2811_brg:` block carries no `break`, so
for that chip type control falls through into the `case ws2812:` block
and both passes are emitted. -/
def showStream (d : Driver) (buf : ℕ → RGBPixel) : List ℕ :=
  match d.ledType with
  | LedType.ws2811_brg => showPass d buf brgPixelBytes ++ showPass d buf grbPixelBytes
  | LedType.ws2812 => showPass d buf grbPixelBytes

-- ==========================================================================
-- Torch simulation (final revision, lines 2679-2743 configuration and
-- lines 3135-3265 implementation)
-- ==========================================================================

/-- `ledsPerLevel` (line 2079). -/
def ledsPerLevel : ℕ := 11

/-- `levels` (line 2083). -/
def levels : ℕ := 21

/-- `numLeds = ledsPerLevel*levels` (line 2679). -/
def numLeds : ℕ := ledsPerLevel * levels

/-- `reduce` (lines 2470-2477) with the default `aMin = 0`: saturating
subtraction of byte `aAmount` from byte `aByte`. -/
def reduce (aByte aAmount : ℕ) : ℕ := if aByte < aAmount then 0 else aByte - aAmount

/-- `increase` (lines 2480-2487): addition of byte `aAmount` to byte
`aByte`, clamped at `aMax`. -/
def increase (aByte aAmount aMax : ℕ) : ℕ :=
  if aMax < aByte + aAmount then aMax else aByte + aAmount

/-- `random(aMinOrMax, aMax)` (lines 2457-2467), with the raw `rand()`
value `r` supplied as an oracle.  `uint16_t` wrap-around of
`aMax - aMinOrMax + 1` is modelled; the result is truncated to
`uint16_t`.  (For `span = 0` C would divide by zero; Lean's `r % 0 = r`
stands in for that unreachable case.) -/
def randomC (aMinOrMax aMax r : ℕ) : ℕ :=
  let lo := if aMax = 0 then 0 else aMinOrMax
  let hi := if aMax = 0 then aMinOrMax else aMax
  let span := (((hi : ℤ) - (lo : ℤ) + 1) % 65536).toNat
  (lo + r % span) % 65536

/-- The torch coefficients read by `injectRandom`/`calcNextEnergy`
(globals, lines 2719-2731).  Stored with their C types' ranges supplied
as theorem hypotheses where needed; `byte`-typed globals are consumed
modulo 256 exactly where C's parameter conversion would truncate them. -/
structure TorchCfg where
  flame_min : ℕ
  flame_max : ℕ
  random_spark_probability : ℕ
  spark_min : ℕ
  spark_max : ℕ
  spark_tfr : ℕ
  spark_cap : ℕ
  up_rad : ℕ
  side_rad : ℕ
  heat_cap : ℕ
deriving DecidableEq

/-- The default values of the torch coefficients (lines 2719-2731). -/
def defaultTorchCfg : TorchCfg :=
  { flame_min := 100, flame_max := 220, random_spark_probability := 2,
    spark_min := 200, spark_max := 255, spark_tfr := 40, spark_cap := 200,
    up_rad := 40, side_rad := 35, heat_cap := 0 }

/-- The three per-cell arrays `currentEnergy`, `nextEnergy`, `energyMode`
(lines 3135-3137), as total functions so that the C code's
out-of-bounds index expressions (`i-1`, `i+1`, `i-ledsPerLevel`) stay
meaningful. -/
structure TorchState where
  cur : ℤ → ℕ
  nxt : ℤ → ℕ
  emode : ℤ → ℕ

/-- `resetEnergy` (lines 3148-3155): cells 0..numLeds-1 of all three
arrays are zeroed (`torch_passive = 0`). -/
def resetEnergy (s : TorchState) : TorchState :=
  { cur := fun j => if 0 ≤ j ∧ j < (numLeds : ℤ) then 0 else s.cur j
    nxt := fun j => if 0 ≤ j ∧ j < (numLeds : ℤ) then 0 else s.nxt j
    emode := fun j => if 0 ≤ j ∧ j < (numLeds : ℤ) then 0 else s.emode j }

/-- The body of the `switch (m)` in `calcNextEnergy` (lines 3160-3205)
for the cell with running index `i` (so `y = i / ledsPerLevel`), writing
`nextEnergy[i]` and possibly `energyMode[i±ledsPerLevel]`.  Mode tags:
`torch_passive = 0`, `torch_nop = 1`, `torch_spark = 2`,
`torch_spark_temp = 3`. -/
def torchStep (c : TorchCfg) (s : TorchState) (i : ℕ) : TorchState :=
  let e := s.cur i
  let m := s.emode i
  let y := i / ledsPerLevel
  if m = 2 then
    -- torch_spark: lose transfer-up energy; cell above becomes temp spark
    let e1 := reduce e (c.spark_tfr % 256)
    let s1 := if y < levels - 1 then
        { s with emode := fun j => if j = (i : ℤ) + (ledsPerLevel : ℤ) then 3 else s.emode j }
      else s
    { s1 with nxt := fun j => if j = (i : ℤ) then e1 else s1.nxt j }
  else if m = 3 then
    -- torch_spark_temp: pull energy from the cell below
    let e2 := s.cur ((i : ℤ) - (ledsPerLevel : ℤ))
    if e2 < c.spark_tfr % 256 then
      let s1 := { s with emode := fun j => if j = (i : ℤ) - (ledsPerLevel : ℤ) then 0 else s.emode j }
      let e1 := increase e e2 255
      let e3 := e1 * c.spark_cap / 256 % 256
      let s2 := { s1 with emode := fun j => if j = (i : ℤ) then 2 else s1.emode j }
      { s2 with nxt := fun j => if j = (i : ℤ) then e3 else s2.nxt j }
    else
      let e1 := increase e (c.spark_tfr % 256) 255
      { s with nxt := fun j => if j = (i : ℤ) then e1 else s.nxt j }
  else if m = 0 then
    -- torch_passive: retention plus radiation from below and the sides
    let e1 := e * c.heat_cap / 256 % 256
    let amt := ((s.cur ((i : ℤ) - 1) + s.cur ((i : ℤ) + 1)) * c.side_rad / 512 +
                s.cur ((i : ℤ) - (ledsPerLevel : ℤ)) * c.up_rad / 256) % 256
    let e2 := increase e1 amt 255
    { s with nxt := fun j => if j = (i : ℤ) then e2 else s.nxt j }
  else
    { s with nxt := fun j => if j = (i : ℤ) then e else s.nxt j }

/-- `calcNextEnergy` (lines 3160-3205): process all cells in ascending
running-index order (bottom row first). -/
def calcNextEnergy (c : TorchCfg) (s : TorchState) : TorchState :=
  (List.range numLeds).foldl (torchStep c) s

/-- The first loop of `injectRandom` (lines 3253-3257): every bottom-row
cell gets fresh random flame energy and mode `torch_nop`; the `rand()`
draws are supplied by the oracle `r1`. -/
def flameInject (c : TorchCfg) (r1 : ℕ → ℕ) (s : TorchState) : TorchState :=
  { s with
    cur := fun j => if 0 ≤ j ∧ j < (ledsPerLevel : ℤ) then
        randomC c.flame_min c.flame_max (r1 j.toNat) % 256 else s.cur j
    emode := fun j => if 0 ≤ j ∧ j < (ledsPerLevel : ℤ) then 1 else s.emode j }

/-- One candidate cell of the second `injectRandom` loop (second row,
cell `ledsPerLevel + k`): with the configured percent probability, a
non-spark cell gets random spark energy and becomes `torch_spark`. -/
def sparkInject (c : TorchCfg) (r2 r3 : ℕ → ℕ) (t : TorchState) (k : ℕ) : TorchState :=
  let i := ledsPerLevel + k
  if t.emode i ≠ 2 ∧ randomC 100 0 (r2 i) < c.random_spark_probability % 256 then
    { t with
      cur := fun j => if j = (i : ℤ) then randomC c.spark_min c.spark_max (r3 i) % 256 else t.cur j
      emode := fun j => if j = (i : ℤ) then 2 else t.emode j }
  else t

/-- `injectRandom` (lines 3251-3265) continued: bottom-row flame energy,
then the second-row spark loop. -/
def injectRandom (c : TorchCfg) (r1 r2 r3 : ℕ → ℕ) (s : TorchState) : TorchState :=
  (List.range ledsPerLevel).foldl (sparkInject c r2 r3) (flameInject c r1 s)

/-- One torch-mode simulation tick as dispatched by `loop()`
(lines 3460-3465): `injectRandom` followed by `calcNextEnergy`
(`calcNextColors` touches colors, not the energy invariant). -/
def torchTick (c : TorchCfg) (r1 r2 r3 : ℕ → ℕ) (s : TorchState) : TorchState :=
  calcNextEnergy c (injectRandom c r1 r2 r3 s)

/-- The energy-sampling index `ei` of `calcNextColors` (lines 3219-3224):
`numLeds - i` when `upside_down` is set, `i` otherwise. -/
def energyIndex (upside_down i : ℕ) : ℕ :=
  if upside_down ≠ 0 then numLeds - i else i

-- ==========================================================================
-- Text layer (lines 2546-2671 font, 2952-3128 compositor)
-- ==========================================================================

/-- `glyphSpacing` (line 2560). -/
def glyphSpacing : ℕ := 2

/-- `numGlyphs` (line 2558). -/
def numGlyphs : ℕ := 102

/-- `rowsPerGlyph` (line 2559). -/
def rowsPerGlyph : ℕ := 7

/-- The `width` column of `fontGlyphs` (lines 2562-2671), one entry per
glyph, ASCII 0x20..0x7F followed by the six accented glyphs. -/
def fontGlyphWidths : List ℕ :=
  [5, 1, 3, 5, 5, 5, 5, 1, 3, 3, 5, 5, 2, 5, 2, 5,
   5, 3, 5, 5, 5, 5, 5, 5, 5, 5, 2, 2, 4, 4, 4, 5,
   5, 5, 5, 5, 5, 5, 5, 5, 5, 3, 5, 5, 5, 7, 5, 5,
   5, 5, 5, 5, 5, 5, 5, 5, 5, 5, 5, 3, 5, 3, 4, 5,
   2, 5, 5, 5, 5, 5, 5, 5, 5, 3, 5, 4, 3, 7, 5, 5,
   5, 5, 5, 5, 5, 5, 5, 7, 5, 5, 5, 3, 1, 3, 4, 5,
   5, 5, 5, 5, 5, 5]

/-- `glyphIndexForChar` (lines 3031-3036); the argument is the
character's (unsigned, on ARM) byte value. -/
def glyphIndexForChar (aChar : ℕ) : ℕ :=
  let i : ℤ := (aChar : ℤ) - 0x20
  if i < 0 ∨ (numGlyphs : ℤ) ≤ i then 95 else i.toNat

/-- The glyph width of a character. -/
def glyphWidthForChar (aChar : ℕ) : ℕ := fontGlyphWidths.getD (glyphIndexForChar aChar) 0

/-- `totalTextPixels` as computed at the top of `renderText`
(lines 3048-3053): the sum of glyph width plus `glyphSpacing` over the
message. -/
def totalTextPixels (text : List ℕ) : ℤ :=
  ((text.map fun ch => glyphWidthForChar ch + glyphSpacing).sum : ℕ)

/-- The scroll state of the text compositor: the globals `text`,
`textPixelOffset`, `textCycleCount`, `repeatCount` (lines 2958-2962). -/
structure TextState where
  text : List ℕ
  textPixelOffset : ℤ
  textCycleCount : ℤ
  repeatCount : ℤ
deriving DecidableEq

/-- The state `newMessage` leaves behind (lines 3005-3009):
`textPixelOffset = -ledsPerLevel`, counters zeroed. -/
def newMessageState (decoded : List ℕ) : TextState :=
  { text := decoded, textPixelOffset := -(ledsPerLevel : ℤ), textCycleCount := 0, repeatCount := 0 }

/-- The scroll/repeat bookkeeping at the end of `renderText`
(lines 3109-3127), together with the `totalTextPixels` computation it
reads (lines 3048-3053).  The `textLayer` writes of `renderText` touch no
counter, so the scroll state after one `renderText` call is exactly this. -/
def renderTextStep (cycles_per_px text_repeats : ℤ) (s : TextState) : TextState :=
  let c := s.textCycleCount + 1
  if cycles_per_px ≤ c then
    let o := s.textPixelOffset + 1
    if totalTextPixels s.text < o then
      let r := s.repeatCount + 1
      if text_repeats ≠ 0 ∧ text_repeats ≤ r then
        { s with text := [], textCycleCount := 0, textPixelOffset := o, repeatCount := r }
      else
        { s with textCycleCount := 0, textPixelOffset := -(ledsPerLevel : ℤ), repeatCount := r }
    else
      { s with textCycleCount := 0, textPixelOffset := o }
  else
    { s with textCycleCount := c }

/-- `crossFade` (lines 3021-3028).  `aFader`, `aValue` and the global
`fade_base` are bytes; every intermediate variable is a byte.  The
subtractions cannot underflow because `baseBrightness ≤ aValue` and
`fade ≤ varBrightness` hold outright, so `ℕ` subtraction is exact; byte
stores keep their `% 256`. -/
def crossFade (fade_base aFader aValue : ℕ) : ℕ × ℕ :=
  let v := aValue % 256
  let f := aFader % 256
  let baseBrightness := v * (fade_base % 256) / 256 % 256
  let varBrightness := (v - baseBrightness) % 256
  let fade := varBrightness * f / 256 % 256
  ((baseBrightness + (varBrightness - fade)) % 256, (baseBrightness + fade) % 256)

-- ==========================================================================
-- Parameter-update entry point: handleParams (lines 2766-2873)
-- ==========================================================================

/-- Wiring `String::indexOf(ch, fromIndex)` on the underlying character
list: the absolute position of the first occurrence of `c` at or after
position `p`, `none` for the C result `-1`. -/
def indexOfFrom (l : List Char) (c : Char) (p : ℕ) : Option ℕ :=
  ((l.drop p).findIdx? (fun x => x = c)).map (fun k => p + k)

/-- Wiring `String::substring(left, right)`: swaps the bounds when
`left > right`, clamps to the string length, and yields the half-open
range `[left, right)`. -/
def substringC (l : List Char) (left right : ℕ) : List Char :=
  (l.take (max left right)).drop (min left right)

/-- `isspace` for the character set `atol` skips. -/
def isSpaceC (c : Char) : Bool :=
  c = ' ' ∨ c = '\t' ∨ c = '\n' ∨ c = '\x0b' ∨ c = '\x0c' ∨ c = '\r'

/-- The digit-consuming loop of `atol`. -/
def atolDigits : List Char → ℕ → ℕ
  | [], acc => acc
  | ch :: rest, acc => if ch.isDigit then atolDigits rest (acc * 10 + (ch.toNat - 48)) else acc

/-- Wiring `String::toInt` = `atol`: skip leading whitespace, optional
sign, then digits; text with no leading numeric part yields 0. -/
def toIntC (l : List Char) : ℤ :=
  match l.dropWhile isSpaceC with
  | [] => 0
  | ch :: rest =>
    if ch = '-' then -(atolDigits rest 0 : ℤ)
    else if ch = '+' then (atolDigits rest 0 : ℤ)
    else (atolDigits (ch :: rest) 0 : ℤ)

/-- C conversion of an `int` value to `uint8_t`. -/
def byteOf (v : ℤ) : ℕ := (v % 256).toNat

/-- C conversion of an `int` value to `uint16_t`. -/
def u16Of (v : ℤ) : ℕ := (v % 65536).toNat

/-- The global tunables assignable through `handleParams`
(lines 2693-2750), with the torch coefficients grouped in their
`TorchCfg` record.  `byte` globals hold values < 256, `uint16_t`
globals values < 65536, `int` globals a mathematical integer. -/
structure Params where
  cycle_wait : ℕ
  mode : ℕ
  brightness : ℤ
  fade_base : ℕ
  lamp_red : ℕ
  lamp_green : ℕ
  lamp_blue : ℕ
  red_text : ℕ
  green_text : ℕ
  blue_text : ℕ
  cycles_per_px : ℤ
  text_repeats : ℤ
  text_base_line : ℤ
  fade_per_repeat : ℤ
  text_intensity : ℤ
  clock_interval : ℤ
  clock_fmt : List Char
  clock_zone : ℤ
  red_bg : ℕ
  green_bg : ℕ
  blue_bg : ℕ
  red_bias : ℕ
  green_bias : ℕ
  blue_bias : ℕ
  red_energy : ℤ
  green_energy : ℤ
  blue_energy : ℤ
  torch : TorchCfg
  upside_down : ℕ
deriving DecidableEq

/-- The initial values of the globals (lines 2693-2750). -/
def defaultParams : Params :=
  { cycle_wait := 1, mode := 1, brightness := 255, fade_base := 140,
    lamp_red := 220, lamp_green := 220, lamp_blue := 200,
    red_text := 0, green_text := 255, blue_text := 180,
    cycles_per_px := 5, text_repeats := 15, text_base_line := 8,
    fade_per_repeat := 15, text_intensity := 255,
    clock_interval := 0, clock_fmt := "%k:%M".toList, clock_zone := 2,
    red_bg := 0, green_bg := 0, blue_bg := 0,
    red_bias := 10, green_bias := 0, blue_bias := 0,
    red_energy := 180, green_energy := 145, blue_energy := 0,
    torch := defaultTorchCfg, upside_down := 0 }

/-- The mutable firmware state `handleParams` touches: the tunables plus
the energy arrays (`spark_prob` also calls `resetEnergy`). -/
structure FirmwareState where
  params : Params
  energy : TorchState

/-- The `if/else if` chain in the body of the `handleParams` loop
(lines 2779-2869, with `NO_CHEERLIGHT` defined, so the two cheerlight
keys are compiled out): a recognized key stores the parsed value with
its global's C-type conversion, `spark_prob` additionally resets the
energy arrays, `clock_fmt` copies at most 29 characters, and any other
key changes nothing. -/
def applyParam (key value : List Char) (st : FirmwareState) : FirmwareState :=
  let val := toIntC value
  if key = "wait".toList then { st with params.cycle_wait := u16Of val }
  else if key = "mode".toList then { st with params.mode := byteOf val }
  else if key = "brightness".toList then { st with params.brightness := val }
  else if key = "fade_base".toList then { st with params.fade_base := byteOf val }
  else if key = "lamp_red".toList then { st with params.lamp_red := byteOf val }
  else if key = "lamp_green".toList then { st with params.lamp_green := byteOf val }
  else if key = "lamp_blue".toList then { st with params.lamp_blue := byteOf val }
  else if key = "red_text".toList then { st with params.red_text := byteOf val }
  else if key = "green_text".toList then { st with params.green_text := byteOf val }
  else if key = "blue_text".toList then { st with params.blue_text := byteOf val }
  else if key = "cycles_per_px".toList then { st with params.cycles_per_px := val }
  else if key = "text_repeats".toList then { st with params.text_repeats := val }
  else if key = "text_base_line".toList then { st with params.text_base_line := val }
  else if key = "fade_per_repeat".toList then { st with params.fade_per_repeat := val }
  else if key = "text_intensity".toList then { st with params.text_intensity := val }
  else if key = "clock_interval".toList then { st with params.clock_interval := val }
  else if key = "clock_fmt".toList then { st with params.clock_fmt := value.take 29 }
  else if key = "clock_zone".toList then { st with params.clock_zone := val }
  else if key = "red_bg".toList then { st with params.red_bg := byteOf val }
  else if key = "green_bg".toList then { st with params.green_bg := byteOf val }
  else if key = "blue_bg".toList then { st with params.blue_bg := byteOf val }
  else if key = "red_bias".toList then { st with params.red_bias := byteOf val }
  else if key = "green_bias".toList then { st with params.green_bias := byteOf val }
  else if key = "blue_bias".toList then { st with params.blue_bias := byteOf val }
  else if key = "red_energy".toList then { st with params.red_energy := val }
  else if key = "green_energy".toList then { st with params.green_energy := val }
  else if key = "blue_energy".toList then { st with params.blue_energy := val }
  else if key = "spark_prob".toList then
    { st with params.torch.random_spark_probability := byteOf val, energy := resetEnergy st.energy }
  else if key = "spark_cap".toList then { st with params.torch.spark_cap := u16Of val }
  else if key = "spark_tfr".toList then { st with params.torch.spark_tfr := byteOf val }
  else if key = "side_rad".toList then { st with params.torch.side_rad := u16Of val }
  else if key = "up_rad".toList then { st with params.torch.up_rad := u16Of val }
  else if key = "heat_cap".toList then { st with params.torch.heat_cap := u16Of val }
  else if key = "flame_min".toList then { st with params.torch.flame_min := byteOf val }
  else if key = "flame_max".toList then { st with params.torch.flame_max := byteOf val }
  else if key = "spark_min".toList then { st with params.torch.spark_min := byteOf val }
  else if key = "spark_max".toList then { st with params.torch.spark_max := byteOf val }
  else if key = "upside_down".toList then { st with params.upside_down := byteOf val }
  else st

/-- The `while (p < command.length())` loop of `handleParams`
(lines 2769-2871): at position `p`, `i` is the next comma (or the end)
and `j` the next `=` anywhere in the remainder; no `=` breaks the loop,
otherwise `[p,j)` is the key, `(j,i)` (bounds swapped by `substring`
when `j+1 > i`) the value, and the loop resumes after the comma.  The
structural `fuel` argument dominates the loop: `p` grows by at least one
per iteration, so `command.length + 1` iterations always suffice (the
equivalence with `handleParamsSpec` proves the `fuel = 0` case
unreachable from `handleParams`). -/
def handleParamsFrom (command : List Char) : ℕ → ℕ → FirmwareState → FirmwareState
  | 0, _, st => st
  | fuel + 1, p, st =>
    if p < command.length then
      match indexOfFrom command '=' p with
      | none => st
      | some j =>
        let i := (indexOfFrom command ',' p).getD command.length
        handleParamsFrom command fuel (i + 1)
          (applyParam (substringC command p j) (substringC command (j + 1) i) st)
    else st

/-- `handleParams` (lines 2766-2873): run the loop from position 0. -/
def handleParams (command : List Char) (st : FirmwareState) : FirmwareState :=
  handleParamsFrom command (command.length + 1) 0 st

/-- Reference rendition of the parsing policy, phrased on the remaining
text instead of a running position: parsing stops exactly when the
remaining text holds no further `=`; otherwise everything before the
next `=` (across commas, if the current pair has none of its own) is the
key, the text between that `=` and the next comma is the value, and
parsing resumes after that comma.  `handleParamsSpec_correct` proves
`handleParams` implements this policy. -/
def handleParamsSpec (rest : List Char) (st : FirmwareState) : FirmwareState :=
  match hj : rest.findIdx? (fun x => x = '=') with
  | none => st
  | some j =>
    let i := (rest.findIdx? (fun x => x = ',')).getD rest.length
    handleParamsSpec (rest.drop (i + 1))
      (applyParam (substringC rest 0 j) (substringC rest (j + 1) i) st)
termination_by rest.length
decreasing_by
  have hne : rest ≠ [] := by
    intro h
    rw [h] at hj
    simp [List.findIdx?] at hj
  have : 0 < rest.length := List.length_pos.mpr hne
  simp only [List.length_drop]
  omega

-- ==========================================================================
-- The driver instance of the torch program and generic helpers
-- ==========================================================================

/-- The `leds` object (line 2681): `p44_ws2812(LED_TYPE, numLeds,
swapXY ? levels : ledsPerLevel, reversedX, alternatingX, swapXY,
reversedY, 1)` with the final revision's configuration constants
(`ws2812`, all flags `false`, `ledsPerLevel = 11`). -/
def torchLeds : Driver :=
  mkDriver LedType.ws2812 numLeds ledsPerLevel false false false false 1

/-- `increase` never exceeds its clamp. -/
theorem increase_le (b a m : ℕ) : increase b a m ≤ m ∨ increase b a m = b + a := by
  unfold increase
  split
  · exact Or.inl le_rfl
  · exact Or.inr rfl

/-- `increase` stays below `m` whenever `m` bounds the unclamped sum or not. -/
theorem increase_le_max (b a m : ℕ) : increase b a m ≤ max m (b + a) := by
  unfold increase
  split
  · exact le_max_left _ _
  · exact le_max_right _ _

/-- `reduce` never exceeds the minuend. -/
theorem reduce_le (b a : ℕ) : reduce b a ≤ b := by
  unfold reduce
  split
  · omega
  · omega

-- ==========================================================================
-- C6: crossFade complement identity
-- ==========================================================================

/-- C6: for every fader value and brightness value in [0,255] (and any
byte `fade_base`), the two outputs of `crossFade` satisfy
`outputA + outputB = maxBright + baseBrightness`, i.e. output A plus the
above-base portion of output B reconstitutes `maxBright`, with
`baseBrightness = (maxBright * fade_base) >> 8`. -/
theorem crossFade_complement (fade_base aFader aValue : ℕ)
    (hf : aFader ≤ 255) (hv : aValue ≤ 255) (hb : fade_base ≤ 255) :
    (crossFade fade_base aFader aValue).1 + (crossFade fade_base aFader aValue).2 =
      aValue + aValue * fade_base / 256 := by
  unfold crossFade
  have h1 : aValue % 256 = aValue := Nat.mod_eq_of_lt (by omega)
  have h2 : fade_base % 256 = fade_base := Nat.mod_eq_of_lt (by omega)
  have h3 : aFader % 256 = aFader := Nat.mod_eq_of_lt (by omega)
  simp only [h1, h2, h3]
  have hbase_le : aValue * fade_base / 256 ≤ aValue := by
    have h : aValue * fade_base ≤ aValue * 256 := Nat.mul_le_mul_left _ (by omega)
    calc aValue * fade_base / 256 ≤ aValue * 256 / 256 := Nat.div_le_div_right h
      _ = aValue := by omega
  have h4 : aValue * fade_base / 256 % 256 = aValue * fade_base / 256 :=
    Nat.mod_eq_of_lt (by omega)
  simp only [h4]
  have h5 : (aValue - aValue * fade_base / 256) % 256 = aValue - aValue * fade_base / 256 :=
    Nat.mod_eq_of_lt (by omega)
  simp only [h5]
  have hfade_le : (aValue - aValue * fade_base / 256) * aFader / 256 ≤
      aValue - aValue * fade_base / 256 := by
    have h : (aValue - aValue * fade_base / 256) * aFader ≤
        (aValue - aValue * fade_base / 256) * 256 := Nat.mul_le_mul_left _ (by omega)
    calc (aValue - aValue * fade_base / 256) * aFader / 256 ≤
        (aValue - aValue * fade_base / 256) * 256 / 256 := Nat.div_le_div_right h
      _ = aValue - aValue * fade_base / 256 := by omega
  have h6 : (aValue - aValue * fade_base / 256) * aFader / 256 % 256 =
      (aValue - aValue * fade_base / 256) * aFader / 256 := Nat.mod_eq_of_lt (by omega)
  simp only [h6]
  omega

/-- Witness for C6 at `fade_base = 140`, `aFader = 100`, `aValue = 200`. -/
theorem crossFade_complement_witness :
    100 ≤ 255 ∧ 200 ≤ 255 ∧ 140 ≤ 255 ∧
    (crossFade 140 100 200).1 + (crossFade 140 100 200).2 = 200 + 200 * 140 / 256 :=
  ⟨by decide, by decide, by decide,
   crossFade_complement 140 100 200 (by decide) (by decide) (by decide)⟩

-- ==========================================================================
-- C9: upside-down energy sampling index is off by one at i = 0
-- ==========================================================================

/-- C9: with `upside_down` set, the energy-sampling index of
`calcNextColors` is `numLeds - i`; at pixel `i = 0` it equals `numLeds`,
one past the last valid index of the `numLeds`-element arrays
`currentEnergy`/`nextEnergy`, while every pixel `i ≥ 1` stays in
bounds. -/
theorem energyIndex_off_by_one (u : ℕ) (hu : u ≠ 0) :
    energyIndex u 0 = numLeds ∧ ¬ energyIndex u 0 < numLeds ∧
    ∀ i, 1 ≤ i → i < numLeds → energyIndex u i < numLeds := by
  unfold energyIndex
  simp only [if_pos hu]
  refine ⟨by omega, by omega, ?_⟩
  intro i h1 h2
  omega

/-- Witness for C9 at `upside_down = 1`, sample pixel `i = 1`. -/
theorem energyIndex_off_by_one_witness :
    (1 : ℕ) ≠ 0 ∧ energyIndex 1 0 = numLeds ∧ energyIndex 1 1 < numLeds :=
  ⟨by decide, (energyIndex_off_by_one 1 (by decide)).1,
   (energyIndex_off_by_one 1 (by decide)).2.2 1 (by decide) (by decide)⟩

-- ==========================================================================
-- C10: setColorXY/getColorXY round trip on the torch's configuration
-- ==========================================================================

/-- The physical index of the torch configuration is plain row-major. -/
theorem torchLeds_index (x y : ℕ) (hx : x < 11) (hy : y < 21) :
    ledIndexFromXY torchLeds x y = y * 11 + x := by
  simp only [ledIndexFromXY, torchLeds, mkDriver, numLeds, ledsPerLevel, levels]
  norm_num
  omega

/-- C10: on the torch's configuration, `setColorXY` followed by
`getColorXY` at the same in-range coordinate returns each channel
truncated to its top five bits (the nearest lower multiple of 8, i.e.
the value with its low three bits masked off), never the original 8-bit
values, and every other pixel of the buffer is unchanged. -/
theorem setGet_roundtrip (buf : ℕ → RGBPixel) (x y r g b : ℕ) (refs : ℕ × ℕ × ℕ)
    (hx : x < getSizeX torchLeds) (hy : y < getSizeY torchLeds)
    (hr : r ≤ 255) (hg : g ≤ 255) (hb : b ≤ 255) :
    getColorXY torchLeds (setColorXY torchLeds buf x y r g b) x y refs =
      (r / 8 * 8, g / 8 * 8, b / 8 * 8) ∧
    ∀ j, j ≠ ledIndexFromXY torchLeds x y →
      setColorXY torchLeds buf x y r g b j = buf j := by
  have hsx : getSizeX torchLeds = 11 := by decide
  have hsy : getSizeY torchLeds = 21 := by decide
  have hx11 : x < 11 := hsx ▸ hx
  have hy21 : y < 21 := hsy ▸ hy
  have hidx := torchLeds_index x y hx11 hy21
  have hnp : torchLeds.numPixels = 231 := by decide
  unfold setColorXY getColorXY
  simp only [hidx, hnp]
  have hcond : ¬ (231 ≤ y * 11 + x) := by omega
  simp only [if_neg hcond, eq_self_iff_true, if_true]
  refine ⟨?_, ?_⟩
  · have e1 : r % 256 = r := Nat.mod_eq_of_lt (by omega)
    have e2 : g % 256 = g := Nat.mod_eq_of_lt (by omega)
    have e3 : b % 256 = b := Nat.mod_eq_of_lt (by omega)
    simp only [e1, e2, e3, Prod.mk.injEq]
    refine ⟨?_, ?_, ?_⟩ <;> omega
  · intro j hj
    simp only [if_neg hj]

/-- Witness for C10 at coordinate (3,7), channels (200, 10, 255). -/
theorem setGet_roundtrip_witness :
    3 < getSizeX torchLeds ∧ 7 < getSizeY torchLeds ∧
    getColorXY torchLeds (setColorXY torchLeds freshBuffer 3 7 200 10 255) 3 7 (1, 2, 3) =
      (200 / 8 * 8, 10 / 8 * 8, 255 / 8 * 8) ∧
    setColorXY torchLeds freshBuffer 3 7 200 10 255 0 = freshBuffer 0 := by
  have h := setGet_roundtrip freshBuffer 3 7 200 10 255 (1, 2, 3)
    (by decide) (by decide) (by decide) (by decide) (by decide)
  exact ⟨by decide, by decide, h.1, h.2 0 (by decide)⟩

-- ==========================================================================
-- C2: out-of-range coordinates
-- ==========================================================================

/-- C2 counterexample: on the torch's own configuration (numPixels = 231,
pixelsPerRow = 11, numRows = 21), the coordinate (11, 0) is out of range
(x = getSizeX), yet `ledIndexFromXY` yields 11 < numPixels and
`setColorXY` overwrites pixel 11 — the pixel belonging to (0, 1) — so an
out-of-range call is neither mapped to an index ≥ numPixels nor a
no-op. -/
theorem outOfRange_writes_counterexample :
    getSizeX torchLeds ≤ 11 ∧ ledIndexFromXY torchLeds 11 0 = 11 ∧
    11 < torchLeds.numPixels ∧
    setColorXY torchLeds freshBuffer 11 0 255 255 255 11 ≠ freshBuffer 11 := by
  decide

/-- Every pixel index lies below `numRows * pixelsPerRow`. -/
theorem row_coverage (a p : ℕ) (hp : 1 ≤ p) : a ≤ ((a - 1) / p + 1) * p := by
  have hdm := Nat.div_add_mod (a - 1) p
  have hmlt : (a - 1) % p < p := Nat.mod_lt _ (by omega)
  have hring : ((a - 1) / p + 1) * p = p * ((a - 1) / p) + p := by ring
  omega

/-- For a non-swapped, non-y-reversed driver, a row index beyond
`numRows` pushes the computed pixel index to `numPixels` or beyond
(provided the arithmetic stays below the uint16_t wrap). -/
theorem ledIndex_row_guard (d : Driver) (x y : ℕ)
    (hswap : d.swapXY = false) (hyrev : d.yReversed = false)
    (hppr : 1 ≤ d.pixelsPerRow)
    (hx : x < d.pixelsPerRow) (hy : d.numRows ≤ y)
    (hfit : y * d.pixelsPerRow + d.pixelsPerRow ≤ 65536)
    (hcover : d.numPixels ≤ d.numRows * d.pixelsPerRow) :
    d.numPixels ≤ ledIndexFromXY d x y := by
  have hmul : d.numRows * d.pixelsPerRow ≤ y * d.pixelsPerRow :=
    Nat.mul_le_mul_right _ hy
  have hylt : y < 65536 := by
    have h1 : y ≤ y * d.pixelsPerRow := Nat.le_mul_of_pos_right y (by omega)
    omega
  have hy65 : y % 65536 = y := Nat.mod_eq_of_lt hylt
  have hx65 : x % 65536 = x := Nat.mod_eq_of_lt (by omega)
  have hled : y * d.pixelsPerRow % 65536 = y * d.pixelsPerRow := Nat.mod_eq_of_lt (by omega)
  unfold ledIndexFromXY
  rw [hswap, hyrev]
  simp only [Bool.false_eq_true, if_false, hy65, hx65, hled]
  split <;> omega

/-- C2 (amended): only the row coordinate is guarded.  With `swapXY` and
`yReversed` clear, any coordinate whose row index is at least `numRows`
(with in-row `x` and arithmetic below the uint16_t wrap) maps to an
index ≥ numPixels, and `setColorXY` and `getColorXY` are then silent
no-ops; an out-of-range `x` instead spills into a later row and can
silently overwrite another pixel (see `outOfRange_writes_counterexample`). -/
theorem outOfRange_row_is_noop (t : LedType) (nl ppr : ℕ) (xr alt : Bool) (lpp : ℕ)
    (buf : ℕ → RGBPixel) (x y r g b : ℕ) (refs : ℕ × ℕ × ℕ)
    (hppr : 1 ≤ ppr) (hx : x < ppr)
    (hy : (mkDriver t nl ppr xr alt false false lpp).numRows ≤ y)
    (hfit : y * ppr + ppr ≤ 65536) :
    (mkDriver t nl ppr xr alt false false lpp).numPixels ≤
      ledIndexFromXY (mkDriver t nl ppr xr alt false false lpp) x y ∧
    setColorXY (mkDriver t nl ppr xr alt false false lpp) buf x y r g b = buf ∧
    getColorXY (mkDriver t nl ppr xr alt false false lpp) buf x y refs = refs := by
  have hppr0 : ¬ ppr = 0 := by omega
  set d := mkDriver t nl ppr xr alt false false lpp with hd
  have hP : d.pixelsPerRow = ppr := by simp [hd, mkDriver, hppr0]
  have hR : d.numRows = (d.numPixels - 1) / ppr + 1 := by simp [hd, mkDriver, hppr0]
  have hsw : d.swapXY = false := by simp [hd, mkDriver]
  have hyr : d.yReversed = false := by simp [hd, mkDriver]
  have hcov : d.numPixels ≤ d.numRows * d.pixelsPerRow := by
    rw [hR, hP]
    exact row_coverage _ _ hppr
  have hidx : d.numPixels ≤ ledIndexFromXY d x y := by
    refine ledIndex_row_guard d x y hsw hyr ?_ ?_ hy ?_ hcov
    · rw [hP]; exact hppr
    · rw [hP]; exact hx
    · rw [hP]; exact hfit
  refine ⟨hidx, ?_, ?_⟩
  · unfold setColorXY
    simp only [if_pos hidx]
  · unfold getColorXY
    simp only [if_pos hidx]

/-- Witness for the amended C2 at numLeds = 10, pixelsPerRow = 4
(numRows = 3), coordinate (0, 3). -/
theorem outOfRange_row_is_noop_witness :
    1 ≤ 4 ∧ 0 < 4 ∧ (mkDriver LedType.ws2812 10 4 false false false false 1).numRows ≤ 3 ∧
    (mkDriver LedType.ws2812 10 4 false false false false 1).numPixels ≤
      ledIndexFromXY (mkDriver LedType.ws2812 10 4 false false false false 1) 0 3 ∧
    setColorXY (mkDriver LedType.ws2812 10 4 false false false false 1)
      freshBuffer 0 3 9 9 9 = freshBuffer ∧
    getColorXY (mkDriver LedType.ws2812 10 4 false false false false 1)
      freshBuffer 0 3 (7, 8, 9) = (7, 8, 9) := by
  have h := outOfRange_row_is_noop LedType.ws2812 10 4 false false 1 freshBuffer
    0 3 9 9 9 (7, 8, 9) (by decide) (by decide) (by decide) (by decide)
  exact ⟨by decide, by decide, by decide, h.1, h.2.1, h.2.2⟩

-- ==========================================================================
-- C3: frame serialisation per chip type
-- ==========================================================================

/-- A one-pixel `ws2812` driver. -/
def grbOne : Driver := mkDriver LedType.ws2812 1 0 false false false false 1

/-- A one-pixel `ws2811_brg` driver. -/
def brgOne : Driver := mkDriver LedType.ws2811_brg 1 0 false false false false 1

/-- C3 at the failing input: for `ws2812` the stream is exactly
`numPixels × ledsPerPixel × 3 × 8 = 24` pulse bytes in G,R,B order —
stored channel 0 gives the short-pulse byte `0x70` eight times, stored
channel 31 (PWM 255) the long-pulse byte `0x7E` eight times — but for
`ws2811_brg` the missing `break` makes `show` fall through and emit the
B,R,G pass (pulse bytes `0x7C`/`0x40`) followed by the whole G,R,B pass:
48 bytes instead of the 24 the claim (and the chip) requires. -/
theorem showStream_fallthrough :
    showStream grbOne freshBuffer = List.replicate 24 0x70 ∧
    showStream grbOne (fun _ => ⟨31, 31, 31⟩) = List.replicate 24 0x7E ∧
    showStream brgOne freshBuffer =
      List.replicate 24 0x40 ++ List.replicate 24 0x70 ∧
    (showStream brgOne freshBuffer).length = 48 ∧
    grbOne.numPixels * grbOne.ledsPerPixel * 3 * 8 = 24 ∧
    brgOne.numPixels * brgOne.ledsPerPixel * 3 * 8 = 24 := by
  decide

-- ==========================================================================
-- C4: energy stays within [0,255]
-- ==========================================================================

/-- Both energy arrays hold byte values. -/
def EnergyInv (s : TorchState) : Prop :=
  ∀ j : ℤ, s.cur j ≤ 255 ∧ s.nxt j ≤ 255

/-- `increase` with the default clamp 255 yields a byte. -/
theorem increase_le255 (b a : ℕ) : increase b a 255 ≤ 255 := by
  unfold increase
  split <;> omega

/-- Folding a byte-range-preserving step preserves byte range. -/
theorem foldl_energyInv {f : TorchState → ℕ → TorchState}
    (hf : ∀ t k, EnergyInv t → EnergyInv (f t k)) :
    ∀ (l : List ℕ) (t : TorchState), EnergyInv t → EnergyInv (l.foldl f t) := by
  intro l
  induction l with
  | nil => exact fun t h => h
  | cons a l ih => exact fun t h => ih _ (hf t a h)

/-- One `calcNextEnergy` cell step keeps both energy arrays in byte
range. -/
theorem torchStep_inv (c : TorchCfg) (s : TorchState) (i : ℕ) (h : EnergyInv s) :
    EnergyInv (torchStep c s i) := by
  have hcur : ∀ j : ℤ, s.cur j ≤ 255 := fun j => (h j).1
  have hnxt : ∀ j : ℤ, s.nxt j ≤ 255 := fun j => (h j).2
  intro j
  simp only [torchStep]
  split_ifs <;> refine ⟨hcur j, ?_⟩ <;> dsimp only [] <;> split_ifs <;>
    first
      | exact hnxt j
      | exact le_trans (reduce_le _ _) (hcur i)
      | exact Nat.le_of_lt_succ (Nat.mod_lt _ (by omega))
      | exact increase_le255 _ _
      | exact hcur i

/-- `calcNextEnergy` keeps both energy arrays in byte range. -/
theorem calcNextEnergy_inv (c : TorchCfg) (s : TorchState) (h : EnergyInv s) :
    EnergyInv (calcNextEnergy c s) :=
  foldl_energyInv (torchStep_inv c · ·) _ s h

/-- `injectRandom` keeps both energy arrays in byte range. -/
theorem injectRandom_inv (c : TorchCfg) (r1 r2 r3 : ℕ → ℕ) (s : TorchState)
    (h : EnergyInv s) : EnergyInv (injectRandom c r1 r2 r3 s) := by
  unfold injectRandom
  have hflame : EnergyInv (flameInject c r1 s) := by
    intro j
    refine ⟨?_, (h j).2⟩
    simp only [flameInject]
    split_ifs
    · exact Nat.le_of_lt_succ (Nat.mod_lt _ (by omega))
    · exact (h j).1
  refine foldl_energyInv ?_ _ _ hflame
  intro t k hk j
  simp only [sparkInject]
  split_ifs
  · refine ⟨?_, (hk j).2⟩
    dsimp only []
    split_ifs
    · exact Nat.le_of_lt_succ (Nat.mod_lt _ (by omega))
    · exact (hk j).1
  · exact hk j

/-- `n` torch-mode ticks, with a fresh triple of `rand()` oracles per
tick. -/
def torchRun (c : TorchCfg) (rs : ℕ → (ℕ → ℕ) × (ℕ → ℕ) × (ℕ → ℕ)) :
    ℕ → TorchState → TorchState
  | 0, s => s
  | n + 1, s => torchRun c rs n (torchTick c (rs n).1 (rs n).2.1 (rs n).2.2 s)

/-- C4: for every coefficient configuration in the documented ranges
(`heat_cap`, `spark_cap` ≤ 255, `spark_tfr` ≤ 256, `up_rad` and
`side_rad` arbitrary) and every number of simulation ticks
(`injectRandom` followed by `calcNextEnergy`, with arbitrary random
draws), every cell of `currentEnergy` and `nextEnergy` stays within
[0,255]: every write is clamped by `increase`/`reduce`, scaled down by a
capacity factor, or truncated by a byte store, so no overflow or
underflow escapes.  (The proof in fact never needs the three coefficient
bounds: the `% 256` byte-store semantics and the clamps alone keep every
cell in range.) -/
theorem torchRun_energy_in_range (c : TorchCfg)
    (hheat : c.heat_cap ≤ 255) (hcap : c.spark_cap ≤ 255) (htfr : c.spark_tfr ≤ 256)
    (rs : ℕ → (ℕ → ℕ) × (ℕ → ℕ) × (ℕ → ℕ)) (s : TorchState) (h : EnergyInv s) :
    ∀ n, EnergyInv (torchRun c rs n s) := by
  intro n
  induction n generalizing s with
  | zero => exact h
  | succ m ih =>
    exact ih _ (calcNextEnergy_inv c _ (injectRandom_inv c _ _ _ _ h))

/-- The state after power-up: `resetEnergy` over arbitrary byte memory
(here all-zero memory). -/
def bootTorchState : TorchState :=
  resetEnergy { cur := fun _ => 0, nxt := fun _ => 0, emode := fun _ => 0 }

/-- `bootTorchState` has byte-range energies. -/
theorem bootTorchState_inv : EnergyInv bootTorchState := by
  intro j
  unfold bootTorchState resetEnergy
  constructor <;> dsimp only [] <;> split_ifs <;> omega

/-- Witness for C4: the default coefficients, two ticks with fixed
random draws, sampled at cells 0 and 230. -/
theorem torchRun_energy_in_range_witness :
    defaultTorchCfg.heat_cap ≤ 255 ∧ defaultTorchCfg.spark_cap ≤ 255 ∧
    defaultTorchCfg.spark_tfr ≤ 256 ∧
    (torchRun defaultTorchCfg (fun _ => (fun _ => 7, fun _ => 3, fun _ => 9)) 2
      bootTorchState).cur 0 ≤ 255 ∧
    (torchRun defaultTorchCfg (fun _ => (fun _ => 7, fun _ => 3, fun _ => 9)) 2
      bootTorchState).nxt 230 ≤ 255 := by
  have h := torchRun_energy_in_range defaultTorchCfg (by decide) (by decide) (by decide)
    (fun _ => (fun _ => 7, fun _ => 3, fun _ => 9)) bootTorchState bootTorchState_inv 2
  exact ⟨by decide, by decide, by decide, (h 0).1, (h 230).2⟩

-- ==========================================================================
-- C5: text scroll timing
-- ==========================================================================

/-- Ticks that do not complete a pixel step only advance the cycle
counter. -/
theorem renderTextStep_cycle (P T : ℤ) (s : TextState)
    (h : s.textCycleCount + 1 < P) :
    renderTextStep P T s = { s with textCycleCount := s.textCycleCount + 1 } := by
  unfold renderTextStep
  rw [if_neg (by omega)]

/-- Climbing the cycle counter: `k` ticks add `k` while below
`cycles_per_px`. -/
theorem renderTextStep_cycle_climb (P T : ℤ) :
    ∀ (k : ℕ) (s : TextState), s.textCycleCount + k + 1 ≤ P →
      (renderTextStep P T)^[k] s = { s with textCycleCount := s.textCycleCount + k } := by
  intro k
  induction k with
  | zero =>
    intro s _
    simp
  | succ m ih =>
    intro s h
    rw [Function.iterate_succ_apply, renderTextStep_cycle P T s (by omega)]
    rw [ih _ (by dsimp only []; omega)]
    dsimp only []
    congr 1
    omega

/-- One pixel step: with the cycle counter at zero and the offset still
at most `totalTextPixels - 1`, `cycles_per_px` ticks advance the offset
by exactly one. -/
theorem renderTextStep_advance (P T : ℤ) (hP : 1 ≤ P) (s : TextState)
    (hcc : s.textCycleCount = 0)
    (hlt : s.textPixelOffset + 1 ≤ totalTextPixels s.text) :
    (renderTextStep P T)^[P.toNat] s =
      { s with textPixelOffset := s.textPixelOffset + 1, textCycleCount := 0 } := by
  have hPn : P.toNat = (P.toNat - 1) + 1 := by omega
  rw [hPn, Function.iterate_succ_apply',
    renderTextStep_cycle_climb P T (P.toNat - 1) s (by omega)]
  unfold renderTextStep
  dsimp only []
  rw [if_pos (by omega), if_neg (by omega)]

/-- `n` pixel steps take `n * cycles_per_px` ticks while the offset stays
within the text. -/
theorem renderTextStep_climb (P T : ℤ) (hP : 1 ≤ P) :
    ∀ (n : ℕ) (s : TextState), s.textCycleCount = 0 →
      s.textPixelOffset + n ≤ totalTextPixels s.text →
      (renderTextStep P T)^[n * P.toNat] s =
        { s with textPixelOffset := s.textPixelOffset + n, textCycleCount := 0 } := by
  intro n
  induction n with
  | zero =>
    intro s hcc _
    obtain ⟨t, o, c, r⟩ := s
    dsimp only [] at hcc
    simp only [Nat.cast_zero, add_zero, zero_mul, Function.iterate_zero, id_eq,
      TextState.mk.injEq, true_and, and_true]
    omega
  | succ m ih =>
    intro s hcc hle
    push_cast at hle
    have hL : (m + 1) * P.toNat = m * P.toNat + P.toNat := by ring
    rw [hL, Function.iterate_add_apply]
    rw [renderTextStep_advance P T hP s hcc (by omega)]
    rw [ih { s with textPixelOffset := s.textPixelOffset + 1, textCycleCount := 0 }
      (by dsimp only []) (by dsimp only []; omega)]
    cases s
    dsimp only []
    simp only [TextState.mk.injEq, true_and, and_true]
    push_cast
    omega

/-- The pixel step that pushes the offset past `totalTextPixels` ends
the pass: the repeat counter increments, and either the scroll restarts
at `-ledsPerLevel` or (once `text_repeats` is reached) the text is
cleared. -/
theorem renderTextStep_endPass (P T : ℤ) (hP : 1 ≤ P) (s : TextState)
    (hcc : s.textCycleCount = 0)
    (hoff : s.textPixelOffset = totalTextPixels s.text) :
    (renderTextStep P T)^[P.toNat] s =
      if T ≠ 0 ∧ T ≤ s.repeatCount + 1 then
        { s with text := [], textCycleCount := 0,
                 textPixelOffset := s.textPixelOffset + 1,
                 repeatCount := s.repeatCount + 1 }
      else
        { s with textPixelOffset := -(ledsPerLevel : ℤ), textCycleCount := 0,
                 repeatCount := s.repeatCount + 1 } := by
  have hPn : P.toNat = (P.toNat - 1) + 1 := by omega
  rw [hPn, Function.iterate_succ_apply',
    renderTextStep_cycle_climb P T (P.toNat - 1) s (by omega)]
  unfold renderTextStep
  dsimp only []
  rw [if_pos (by omega), if_pos (by omega)]

/-- The tick count of one complete pass: the offset starts at
`-ledsPerLevel` and the pass ends when it passes `totalTextPixels`,
after `totalTextPixels + ledsPerLevel + 1` pixel steps of `cycles_per_px`
ticks each. -/
def passTicks (text : List ℕ) (P : ℤ) : ℕ :=
  (totalTextPixels text + (ledsPerLevel : ℤ) + 1).toNat * P.toNat

/-- `totalTextPixels` is never negative. -/
theorem totalTextPixels_nonneg (text : List ℕ) : 0 ≤ totalTextPixels text := by
  unfold totalTextPixels
  positivity

/-- One complete pass from a fresh scroll position: after
`passTicks` ticks the repeat counter has grown by one and either the
scroll has restarted at `-ledsPerLevel` or — when `text_repeats` is
nonzero and reached — the text has been cleared. -/
theorem renderTextStep_onePass (P T : ℤ) (hP : 1 ≤ P) (text : List ℕ) (r : ℤ) :
    (renderTextStep P T)^[passTicks text P]
        ⟨text, -(ledsPerLevel : ℤ), 0, r⟩ =
      if T ≠ 0 ∧ T ≤ r + 1 then
        ⟨[], totalTextPixels text + 1, 0, r + 1⟩
      else
        ⟨text, -(ledsPerLevel : ℤ), 0, r + 1⟩ := by
  have hW := totalTextPixels_nonneg text
  have hsplit : passTicks text P =
      P.toNat + ((totalTextPixels text).toNat + 11) * P.toNat := by
    unfold passTicks ledsPerLevel
    push_cast
    have h12 : (totalTextPixels text + 11 + 1).toNat = (totalTextPixels text).toNat + 12 := by
      omega
    rw [h12]
    ring
  rw [hsplit, Function.iterate_add_apply]
  rw [renderTextStep_climb P T hP ((totalTextPixels text).toNat + 11)
    ⟨text, -(ledsPerLevel : ℤ), 0, r⟩ rfl (by dsimp only []; unfold ledsPerLevel; push_cast; omega)]
  have hoff : (-(ledsPerLevel : ℤ) + ((totalTextPixels text).toNat + 11 : ℕ)) =
      totalTextPixels text := by
    unfold ledsPerLevel
    push_cast
    omega
  rw [renderTextStep_endPass P T hP _ rfl (by dsimp only []; exact hoff)]
  dsimp only []
  split_ifs with h <;> simp only [TextState.mk.injEq, true_and, and_true] <;> omega

/-- Repeated passes: starting `k` passes before the repeat limit, after
`k * passTicks` ticks the text has been cleared. -/
theorem renderTextStep_clears (P T : ℤ) (hP : 1 ≤ P) (hT : 1 ≤ T) (text : List ℕ) :
    ∀ (k : ℕ), 1 ≤ k → (k : ℤ) ≤ T →
      ((renderTextStep P T)^[k * passTicks text P]
          ⟨text, -(ledsPerLevel : ℤ), 0, T - k⟩).text = [] := by
  intro k
  induction k with
  | zero => omega
  | succ m ih =>
    intro _ hk
    have hL : (m + 1) * passTicks text P = m * passTicks text P + passTicks text P := by
      ring
    rw [hL, Function.iterate_add_apply, renderTextStep_onePass P T hP text _]
    rcases Nat.eq_zero_or_pos m with hm | hm
    · subst hm
      rw [if_pos (by constructor <;> push_cast <;> omega)]
      simp
    · rw [if_neg (by push_cast; omega)]
      have h1 : T - (m + 1 : ℕ) + 1 = T - (m : ℕ) := by push_cast; omega
      rw [h1]
      exact ih (by omega) (by push_cast at hk ⊢; omega)

set_option maxRecDepth 100000 in
/-- C5 counterexample: the message "!" has scroll width
W = totalTextPixels = 3 and with cycles_per_px = 5 the claim predicts one
complete pass after W × P = 15 ticks; but after 15 ticks from
`newMessage` the offset has only climbed from -11 to -8 and no pass has
completed (repeatCount is still 0); the pass in fact completes after
(W + ledsPerLevel + 1) × P = 75 ticks. -/
theorem renderText_pass_counterexample :
    totalTextPixels [33] = 3 ∧
    (renderTextStep 5 15)^[3 * 5] (newMessageState [33]) =
      { text := [33], textPixelOffset := -8, textCycleCount := 0, repeatCount := 0 } ∧
    (renderTextStep 5 15)^[(3 + 11 + 1) * 5] (newMessageState [33]) =
      { text := [33], textPixelOffset := -11, textCycleCount := 0, repeatCount := 1 } := by
  decide

/-- C5 (amended): the scroll offset increments by exactly one every
`cycles_per_px` ticks, one complete pass of the message takes exactly
`(totalTextPixels + ledsPerLevel + 1) × cycles_per_px` ticks — not
`totalTextPixels × cycles_per_px`, because the offset starts at
`-ledsPerLevel` and the pass only ends one pixel step after the offset
reaches `totalTextPixels` — and after `text_repeats` completed passes
(when `text_repeats` is nonzero) the text is cleared, deactivating the
overlay. -/
theorem renderText_scroll_timing (P T : ℤ) (text : List ℕ)
    (hP : 1 ≤ P) (htext : text ≠ []) :
    (∀ s : TextState, s.textCycleCount = 0 →
        s.textPixelOffset + 1 ≤ totalTextPixels s.text →
        (renderTextStep P T)^[P.toNat] s =
          { s with textPixelOffset := s.textPixelOffset + 1, textCycleCount := 0 }) ∧
    (∀ r : ℤ, (renderTextStep P T)^[passTicks text P]
        ⟨text, -(ledsPerLevel : ℤ), 0, r⟩ =
      if T ≠ 0 ∧ T ≤ r + 1 then ⟨[], totalTextPixels text + 1, 0, r + 1⟩
      else ⟨text, -(ledsPerLevel : ℤ), 0, r + 1⟩) ∧
    (1 ≤ T →
      ((renderTextStep P T)^[T.toNat * passTicks text P] (newMessageState text)).text = []) := by
  refine ⟨fun s hcc hlt => renderTextStep_advance P T hP s hcc hlt,
    fun r => renderTextStep_onePass P T hP text r, fun hT => ?_⟩
  have h0 : (T.toNat : ℤ) = T := by omega
  have h := renderTextStep_clears P T hP hT text T.toNat (by omega) (by omega)
  rw [h0] at h
  unfold newMessageState
  simpa using h

/-- Witness for the amended C5 on the message "!" with cycles_per_px = 5
and text_repeats = 2: the text is cleared after exactly
2 × (3 + 11 + 1) × 5 = 150 ticks. -/
theorem renderText_scroll_timing_witness :
    (1 : ℤ) ≤ 5 ∧ ([33] : List ℕ) ≠ [] ∧ (1 : ℤ) ≤ 2 ∧
    ((renderTextStep 5 2)^[(2 : ℤ).toNat * passTicks [33] 5]
      (newMessageState [33])).text = [] := by
  have h := (renderText_scroll_timing 5 2 [33] (by decide) (by decide)).2.2 (by decide)
  exact ⟨by decide, by decide, by decide, h⟩

-- ==========================================================================
-- C8: neighbor topology of the diffusion step
-- ==========================================================================

/-- A cell step never writes `currentEnergy`. -/
theorem torchStep_cur (c : TorchCfg) (t : TorchState) (i : ℕ) :
    (torchStep c t i).cur = t.cur := by
  simp only [torchStep]
  split_ifs <;> rfl

/-- A cell step writes `nextEnergy` only at its own index. -/
theorem torchStep_nxt_ne (c : TorchCfg) (t : TorchState) (i : ℕ) (z : ℤ) (hz : z ≠ i) :
    (torchStep c t i).nxt z = t.nxt z := by
  simp only [torchStep]
  split_ifs <;> simp [hz]

/-- A cell step writes `energyMode` only at its own index and one level
below or above it. -/
theorem torchStep_emode_keep (c : TorchCfg) (t : TorchState) (i : ℕ) (z : ℤ)
    (h1 : z ≠ i) (h2 : z ≠ (i : ℤ) + ledsPerLevel) (h3 : z ≠ (i : ℤ) - ledsPerLevel) :
    (torchStep c t i).emode z = t.emode z := by
  simp only [torchStep]
  split_ifs <;> simp [h1, h2, h3]

/-- A cell step never writes the spark tag 2 at a foreign index. -/
theorem torchStep_emode_ne_two (c : TorchCfg) (t : TorchState) (i : ℕ) (z : ℤ)
    (hz : z ≠ i) (h : t.emode z ≠ 2) : (torchStep c t i).emode z ≠ 2 := by
  simp only [torchStep]
  split_ifs <;> dsimp only [] <;> first | omega | (split_ifs <;> omega)

/-- A cell whose mode is not `torch_spark` writes `energyMode` only at
its own index and one level below. -/
theorem torchStep_emode_nospark (c : TorchCfg) (t : TorchState) (i : ℕ)
    (hm : t.emode i ≠ 2) (z : ℤ) (h1 : z ≠ i) (h3 : z ≠ (i : ℤ) - ledsPerLevel) :
    (torchStep c t i).emode z = t.emode z := by
  simp only [torchStep]
  split_ifs <;> simp_all [h1, h3]

/-- The value a passive cell writes to `nextEnergy`: retention plus the
radiation gathered from the flat-array neighbors `i-1`, `i+1` and
`i-ledsPerLevel`. -/
def passiveNext (c : TorchCfg) (s : TorchState) (i : ℤ) : ℕ :=
  increase (s.cur i * c.heat_cap / 256 % 256)
    (((s.cur (i - 1) + s.cur (i + 1)) * c.side_rad / 512 +
      s.cur (i - ledsPerLevel) * c.up_rad / 256) % 256) 255

/-- A passive cell's step writes exactly `passiveNext`. -/
theorem torchStep_passive (c : TorchCfg) (t : TorchState) (i : ℕ)
    (hm : t.emode i = 0) :
    (torchStep c t i).nxt i = passiveNext c t i := by
  simp only [torchStep, hm]
  norm_num [passiveNext]

/-- Folds of cell steps never write `currentEnergy`. -/
theorem foldSteps_cur (c : TorchCfg) :
    ∀ (l : List ℕ) (t : TorchState), (l.foldl (torchStep c) t).cur = t.cur := by
  intro l
  induction l with
  | nil => intro t; rfl
  | cons a l ih => intro t; rw [List.foldl_cons, ih, torchStep_cur]

/-- Folds of cell steps away from `z` leave `nextEnergy z` alone. -/
theorem foldSteps_nxt_ne (c : TorchCfg) :
    ∀ (l : List ℕ) (t : TorchState) (z : ℤ), (∀ j ∈ l, z ≠ (j : ℤ)) →
      (l.foldl (torchStep c) t).nxt z = t.nxt z := by
  intro l
  induction l with
  | nil => intro t z _; rfl
  | cons a l ih =>
    intro t z h
    rw [List.foldl_cons, ih _ z (fun j hj => h j (List.mem_cons_of_mem a hj)),
      torchStep_nxt_ne c t a z (h a (List.mem_cons_self a l))]

/-- Folds of cell steps whose indices stay clear of `z` (also one level
away) leave `energyMode z` alone. -/
theorem foldSteps_emode_keep (c : TorchCfg) :
    ∀ (l : List ℕ) (t : TorchState) (z : ℤ),
      (∀ j ∈ l, z ≠ (j : ℤ) ∧ z ≠ (j : ℤ) + ledsPerLevel ∧ z ≠ (j : ℤ) - ledsPerLevel) →
      (l.foldl (torchStep c) t).emode z = t.emode z := by
  intro l
  induction l with
  | nil => intro t z _; rfl
  | cons a l ih =>
    intro t z h
    have ha := h a (List.mem_cons_self a l)
    rw [List.foldl_cons, ih _ z (fun j hj => h j (List.mem_cons_of_mem a hj)),
      torchStep_emode_keep c t a z ha.1 ha.2.1 ha.2.2]

/-- Folds of cell steps at foreign indices never install the spark
tag 2 at `z`. -/
theorem foldSteps_emode_ne_two (c : TorchCfg) :
    ∀ (l : List ℕ) (t : TorchState) (z : ℤ), (∀ j ∈ l, z ≠ (j : ℤ)) →
      t.emode z ≠ 2 → (l.foldl (torchStep c) t).emode z ≠ 2 := by
  intro l
  induction l with
  | nil => intro t z _ h; exact h
  | cons a l ih =>
    intro t z h h2
    exact ih _ z (fun j hj => h j (List.mem_cons_of_mem a hj))
      (torchStep_emode_ne_two c t a z (h a (List.mem_cons_self a l)) h2)

/-- The flat-array neighbor rule of `calcNextEnergy`: the value written
to `nextEnergy[i]` for a cell that is passive when reached (its stored
mode is passive and the cell below is not a spark, so no earlier cell of
the scan retags it) is `passiveNext`, reading `currentEnergy` at the
linear indices `i-1`, `i+1` and `i-ledsPerLevel`. -/
theorem calcNextEnergy_passive_at (c : TorchCfg) (s : TorchState) (i : ℕ)
    (hiL : ledsPerLevel ≤ i) (hin : i < numLeds)
    (hm : s.emode i = 0) (hbelow : s.emode ((i : ℤ) - ledsPerLevel) ≠ 2) :
    (calcNextEnergy c s).nxt i = passiveNext c s i := by
  have hL1 : 1 ≤ ledsPerLevel := by decide
  have hacast : ((i - ledsPerLevel : ℕ) : ℤ) = (i : ℤ) - ledsPerLevel := by
    push_cast [hiL]
    ring
  have d1 : List.range' 0 (i - ledsPerLevel) ++ List.range' (i - ledsPerLevel) 1 =
      List.range' 0 (i - ledsPerLevel + 1) := by
    have h := List.range'_append 0 (i - ledsPerLevel) 1 1
    simpa [Nat.add_comm] using h
  have d2 : List.range' 0 (i - ledsPerLevel + 1) ++
      List.range' (i - ledsPerLevel + 1) (ledsPerLevel - 1) = List.range' 0 i := by
    have h := List.range'_append 0 (i - ledsPerLevel + 1) (ledsPerLevel - 1) 1
    have harith : ledsPerLevel - 1 + (i - ledsPerLevel + 1) = i := by omega
    simpa [harith] using h
  have d3 : List.range' 0 i ++ List.range' i 1 = List.range' 0 (i + 1) := by
    have h := List.range'_append 0 i 1 1
    simpa [Nat.add_comm] using h
  have d4 : List.range' 0 (i + 1) ++ List.range' (i + 1) (numLeds - (i + 1)) =
      List.range' 0 numLeds := by
    have h := List.range'_append 0 (i + 1) (numLeds - (i + 1)) 1
    have harith : numLeds - (i + 1) + (i + 1) = numLeds := by omega
    simpa [harith] using h
  unfold calcNextEnergy
  rw [List.range_eq_range', ← d4, ← d3, ← d2, ← d1]
  simp only [List.foldl_append, List.foldl_cons, List.foldl_nil, List.range'_one]
  set t1 := (List.range' 0 (i - ledsPerLevel)).foldl (torchStep c) s with ht1
  set t2 := torchStep c t1 (i - ledsPerLevel) with ht2
  set t3 := (List.range' (i - ledsPerLevel + 1) (ledsPerLevel - 1)).foldl (torchStep c) t2
    with ht3
  have hcur1 : t1.cur = s.cur := foldSteps_cur c _ s
  have hemode1 : t1.emode i = s.emode i := by
    refine foldSteps_emode_keep c _ s i ?_
    intro j hj
    rw [List.mem_range'_1] at hj
    refine ⟨by push_cast; omega, by push_cast; omega, by push_cast; omega⟩
  have hbelow1 : t1.emode ((i - ledsPerLevel : ℕ) : ℤ) ≠ 2 := by
    refine foldSteps_emode_ne_two c _ s _ ?_ ?_
    · intro j hj
      rw [List.mem_range'_1] at hj
      push_cast
      omega
    · rw [hacast]
      exact hbelow
  have hemode2 : t2.emode i = s.emode i := by
    rw [ht2, torchStep_emode_nospark c t1 (i - ledsPerLevel) hbelow1 i
      (by push_cast; omega) (by rw [hacast]; push_cast; omega)]
    exact hemode1
  have hcur2 : t2.cur = s.cur := by rw [ht2, torchStep_cur, hcur1]
  have hemode3 : t3.emode i = s.emode i := by
    rw [ht3]
    rw [foldSteps_emode_keep c _ t2 i ?_]
    · exact hemode2
    · intro j hj
      rw [List.mem_range'_1] at hj
      refine ⟨by push_cast; omega, by push_cast; omega, by push_cast; omega⟩
  have hcur3 : t3.cur = s.cur := by rw [ht3, foldSteps_cur, hcur2]
  rw [foldSteps_nxt_ne c _ (torchStep c t3 i) i ?_]
  · rw [torchStep_passive c t3 i (by rw [hemode3]; exact hm)]
    simp only [passiveNext, hcur3]
  · intro j hj
    rw [List.mem_range'_1] at hj
    push_cast
    omega

/-- An in-grid cell step never writes `energyMode` at or beyond
`numLeds`: in particular a spark in the top row (whose `y < levels-1`
guard fails) notifies no cell above the grid. -/
theorem torchStep_emode_above (c : TorchCfg) (t : TorchState) (i : ℕ)
    (hin : i < numLeds) (z : ℤ) (hz : (numLeds : ℤ) ≤ z) :
    (torchStep c t i).emode z = t.emode z := by
  have hz231 : (231 : ℤ) ≤ z := by simpa [numLeds, ledsPerLevel, levels] using hz
  have hin231 : i < 231 := by simpa [numLeds, ledsPerLevel, levels] using hin
  simp only [torchStep]
  unfold ledsPerLevel levels
  split_ifs <;> dsimp only [] <;> first | rfl | (split_ifs <;> omega)

/-- `calcNextEnergy` leaves `energyMode` untouched at and beyond
`numLeds`. -/
theorem calcNextEnergy_emode_above (c : TorchCfg) (s : TorchState) (z : ℤ)
    (hz : (numLeds : ℤ) ≤ z) :
    (calcNextEnergy c s).emode z = s.emode z := by
  unfold calcNextEnergy
  have hgen : ∀ (l : List ℕ) (t : TorchState), (∀ j ∈ l, j < numLeds) →
      (l.foldl (torchStep c) t).emode z = t.emode z := by
    intro l
    induction l with
    | nil => intro t _; rfl
    | cons a l ih =>
      intro t h
      rw [List.foldl_cons, ih _ (fun j hj => h j (List.mem_cons_of_mem a hj)),
        torchStep_emode_above c t a (h a (List.mem_cons_self a l)) z hz]
  exact hgen _ s fun j hj => List.mem_range.mp hj

/-- The neighbor rule the claim asserts (horizontal cylinder per row):
Modelled from the spec: column 0's left neighbor would be the last
column of the same row, and the last column's right neighbor column 0 of
the same row. -/
def cylinderPassiveNext (c : TorchCfg) (s : TorchState) (x y : ℕ) : ℕ :=
  let i := y * ledsPerLevel + x
  let left : ℤ := if x = 0 then (y * ledsPerLevel + (ledsPerLevel - 1) : ℕ) else (i : ℤ) - 1
  let right : ℤ := if x = ledsPerLevel - 1 then (y * ledsPerLevel : ℕ) else (i : ℤ) + 1
  increase (s.cur i * c.heat_cap / 256 % 256)
    (((s.cur left + s.cur right) * c.side_rad / 512 +
      s.cur ((i : ℤ) - ledsPerLevel) * c.up_rad / 256) % 256) 255

/-- A concrete all-passive state whose only energy sits in the last
column of row 1 (cell (10,1), flat index 21). -/
def edgeProbeState : TorchState :=
  { cur := fun j => if j = 21 then 200 else 0
    nxt := fun _ => 0
    emode := fun _ => 0 }

set_option maxRecDepth 1000000 in
/-- C8 counterexample: for the passive cell (0,1) (flat index 11) the
code reads `currentEnergy[i-1]` = cell (10,0) — the last column of the
row BELOW — not the last column of the same row: with energy 200 in cell
(10,1) and zero elsewhere, `calcNextEnergy` writes 0 to
`nextEnergy[11]`, while the cylinder rule the claim states would write
13. -/
theorem torch_cylinder_counterexample :
    (calcNextEnergy defaultTorchCfg edgeProbeState).nxt 11 = 0 ∧
    cylinderPassiveNext defaultTorchCfg edgeProbeState 0 1 = 13 ∧ (0 : ℕ) ≠ 13 := by
  constructor
  · decide
  · constructor <;> decide

/-- C8 (amended): the diffusion step's neighbor lookups are linear in
the flat array, so the grid is NOT a horizontal cylinder: for a passive
cell in the leftmost column of row y+1 the "left" contribution is the
last column of row y (the row below), and for a passive cell in the
rightmost column of row y+1 the "right" contribution is column 0 of row
y+2 (the row above); a spark in the top row notifies no cell above the
grid (energyMode at or beyond numLeds is never written). -/
theorem torch_edge_neighbors (c : TorchCfg) (s : TorchState) (y' : ℕ)
    (hy : y' + 1 < levels)
    (hmL : s.emode (((y' + 1) * ledsPerLevel : ℕ)) = 0)
    (hbL : s.emode ((y' * ledsPerLevel : ℕ)) ≠ 2)
    (hmR : s.emode (((y' + 1) * ledsPerLevel + (ledsPerLevel - 1) : ℕ)) = 0)
    (hbR : s.emode ((y' * ledsPerLevel + (ledsPerLevel - 1) : ℕ)) ≠ 2) :
    ((calcNextEnergy c s).nxt (((y' + 1) * ledsPerLevel : ℕ)) =
      increase (s.cur (((y' + 1) * ledsPerLevel : ℕ)) * c.heat_cap / 256 % 256)
        (((s.cur ((y' * ledsPerLevel + (ledsPerLevel - 1) : ℕ)) +
           s.cur (((y' + 1) * ledsPerLevel + 1 : ℕ))) * c.side_rad / 512 +
          s.cur ((y' * ledsPerLevel : ℕ)) * c.up_rad / 256) % 256) 255) ∧
    ((calcNextEnergy c s).nxt (((y' + 1) * ledsPerLevel + (ledsPerLevel - 1) : ℕ)) =
      increase (s.cur (((y' + 1) * ledsPerLevel + (ledsPerLevel - 1) : ℕ)) * c.heat_cap / 256 % 256)
        (((s.cur (((y' + 1) * ledsPerLevel + (ledsPerLevel - 2) : ℕ)) +
           s.cur (((y' + 2) * ledsPerLevel : ℕ))) * c.side_rad / 512 +
          s.cur ((y' * ledsPerLevel + (ledsPerLevel - 1) : ℕ)) * c.up_rad / 256) % 256) 255) ∧
    (∀ z : ℤ, (numLeds : ℤ) ≤ z → (calcNextEnergy c s).emode z = s.emode z) := by
  have hlev : levels = 21 := rfl
  refine ⟨?_, ?_, fun z hz => calcNextEnergy_emode_above c s z hz⟩
  · have h := calcNextEnergy_passive_at c s ((y' + 1) * ledsPerLevel)
      (by unfold ledsPerLevel; omega)
      (by unfold numLeds ledsPerLevel levels at *; omega)
      hmL
      (by
        have ecast : ((((y' + 1) * ledsPerLevel : ℕ)) : ℤ) - ledsPerLevel =
            ((y' * ledsPerLevel : ℕ) : ℤ) := by unfold ledsPerLevel; push_cast; ring
        rw [ecast]
        exact hbL)
    rw [h]
    unfold passiveNext ledsPerLevel
    have e1 : ((((y' + 1) * 11 : ℕ)) : ℤ) - 1 = ((y' * 11 + (11 - 1) : ℕ) : ℤ) := by omega
    have e2 : ((((y' + 1) * 11 : ℕ)) : ℤ) + 1 = (((y' + 1) * 11 + 1 : ℕ) : ℤ) := by omega
    have e3 : ((((y' + 1) * 11 : ℕ)) : ℤ) - (11 : ℕ) = ((y' * 11 : ℕ) : ℤ) := by omega
    rw [e1, e2, e3]
  · have h := calcNextEnergy_passive_at c s ((y' + 1) * ledsPerLevel + (ledsPerLevel - 1))
      (by unfold ledsPerLevel; omega)
      (by unfold numLeds ledsPerLevel levels at *; omega)
      hmR
      (by
        have ecast : ((((y' + 1) * ledsPerLevel + (ledsPerLevel - 1) : ℕ)) : ℤ) - ledsPerLevel =
            ((y' * ledsPerLevel + (ledsPerLevel - 1) : ℕ) : ℤ) := by
          unfold ledsPerLevel
          omega
        rw [ecast]
        exact hbR)
    rw [h]
    unfold passiveNext ledsPerLevel
    have e1 : ((((y' + 1) * 11 + (11 - 1) : ℕ)) : ℤ) - 1 =
        (((y' + 1) * 11 + (11 - 2) : ℕ) : ℤ) := by omega
    have e2 : ((((y' + 1) * 11 + (11 - 1) : ℕ)) : ℤ) + 1 = (((y' + 2) * 11 : ℕ) : ℤ) := by omega
    have e3 : ((((y' + 1) * 11 + (11 - 1) : ℕ)) : ℤ) - (11 : ℕ) =
        ((y' * 11 + (11 - 1) : ℕ) : ℤ) := by omega
    rw [e1, e2, e3]

set_option maxRecDepth 1000000 in
/-- Witness for the amended C8 at row 1 of `edgeProbeState` (energy 200
in cell (10,1), all cells passive). -/
theorem torch_edge_neighbors_witness :
    0 + 1 < levels ∧
    (calcNextEnergy defaultTorchCfg edgeProbeState).nxt (((0 + 1) * ledsPerLevel : ℕ)) =
      increase (edgeProbeState.cur (((0 + 1) * ledsPerLevel : ℕ)) * defaultTorchCfg.heat_cap / 256 % 256)
        (((edgeProbeState.cur ((0 * ledsPerLevel + (ledsPerLevel - 1) : ℕ)) +
           edgeProbeState.cur (((0 + 1) * ledsPerLevel + 1 : ℕ))) * defaultTorchCfg.side_rad / 512 +
          edgeProbeState.cur ((0 * ledsPerLevel : ℕ)) * defaultTorchCfg.up_rad / 256) % 256) 255 ∧
    (calcNextEnergy defaultTorchCfg edgeProbeState).emode 231 = edgeProbeState.emode 231 := by
  have h := torch_edge_neighbors defaultTorchCfg edgeProbeState 0 (by decide)
    (by decide) (by decide) (by decide) (by decide)
  exact ⟨by decide, h.1, h.2.2 231 (by decide)⟩

-- ==========================================================================
-- C1: the logical-to-physical mapping as a bijection
-- ==========================================================================

/-- The truncation-free core of `ledIndexFromXY` on post-swap
coordinates: reverse Y if configured, then row-major with optional
per-row X reversal. -/
def rowIndex (d : Driver) (X Y : ℕ) : ℕ :=
  (if d.yReversed then d.numRows - 1 - Y else Y) * d.pixelsPerRow +
  (if xor d.xReversed (d.alternating &&
      decide ((if d.yReversed then d.numRows - 1 - Y else Y) % 2 = 1))
   then d.pixelsPerRow - 1 - X else X)

/-- The inverse of `rowIndex`. -/
def rowInv (d : Driver) (k : ℕ) : ℕ × ℕ :=
  (if xor d.xReversed (d.alternating && decide ((k / d.pixelsPerRow) % 2 = 1))
   then d.pixelsPerRow - 1 - k % d.pixelsPerRow else k % d.pixelsPerRow,
   if d.yReversed then d.numRows - 1 - k / d.pixelsPerRow else k / d.pixelsPerRow)

/-- No-wrap bounds for a row-major index. -/
theorem rowNoWrap (P R Y2 X : ℕ) (hfit : P * R ≤ 65536) (hY2 : Y2 < R) (hX : X < P) :
    Y2 * P % 65536 = Y2 * P ∧ Y2 * P + P ≤ 65536 := by
  have h1 : (Y2 + 1) * P ≤ R * P := Nat.mul_le_mul_right P (by omega)
  have h2 : (Y2 + 1) * P = Y2 * P + P := by ring
  have h3 : P * R = R * P := by ring
  constructor
  · exact Nat.mod_eq_of_lt (by omega)
  · omega

/-- On in-range coordinates the uint16_t stores of `ledIndexFromXY`
never truncate, so the map is `rowIndex` on the post-swap
coordinates. -/
theorem ledIndexFromXY_eq_rowIndex (d : Driver) (x y : ℕ)
    (hfit : d.pixelsPerRow * d.numRows ≤ 65536)
    (hx : x < getSizeX d) (hy : y < getSizeY d) :
    ledIndexFromXY d x y =
      rowIndex d (if d.swapXY then y else x) (if d.swapXY then x else y) := by
  unfold getSizeX at hx
  unfold getSizeY at hy
  unfold ledIndexFromXY rowIndex
  cases hs : d.swapXY with
  | false =>
    simp only [hs, Bool.false_eq_true, if_false] at hx hy
    simp only [hs, Bool.false_eq_true, if_false]
    have hR : 1 ≤ d.numRows := by omega
    have hP65 : d.pixelsPerRow ≤ 65536 := by
      have h1 : d.pixelsPerRow * 1 ≤ d.pixelsPerRow * d.numRows :=
        Nat.mul_le_mul_left _ hR
      omega
    have hP1 : 1 ≤ d.pixelsPerRow := by omega
    have hR65 : d.numRows ≤ 65536 := by
      have h2 : 1 * d.numRows ≤ d.pixelsPerRow * d.numRows := Nat.mul_le_mul_right _ hP1
      omega
    have hx65 : x % 65536 = x := Nat.mod_eq_of_lt (by omega)
    have hy65 : y % 65536 = y := Nat.mod_eq_of_lt (by omega)
    rw [hx65, hy65]
    cases hyr : d.yReversed with
    | false =>
      simp only [hyr, Bool.false_eq_true, if_false]
      obtain ⟨e1, e2⟩ := rowNoWrap d.pixelsPerRow d.numRows y x hfit hy hx
      rw [e1]
      cases hrev : xor d.xReversed (d.alternating && decide (y % 2 = 1)) with
      | false => simp only [hrev, Bool.false_eq_true, if_false]; omega
      | true => simp only [hrev, if_true]; omega
    | true =>
      simp only [hyr, if_true]
      have hy2 : (((d.numRows : ℤ) - 1 - (y : ℤ)) % 65536).toNat = d.numRows - 1 - y := by
        omega
      rw [hy2]
      obtain ⟨e1, e2⟩ := rowNoWrap d.pixelsPerRow d.numRows (d.numRows - 1 - y) x hfit
        (by omega) hx
      rw [e1]
      cases hrev : xor d.xReversed
          (d.alternating && decide ((d.numRows - 1 - y) % 2 = 1)) with
      | false => simp only [hrev, Bool.false_eq_true, if_false]; omega
      | true => simp only [hrev, if_true]; omega
  | true =>
    simp only [hs, if_true] at hx hy
    simp only [hs, if_true]
    have hR : 1 ≤ d.numRows := by omega
    have hP65 : d.pixelsPerRow ≤ 65536 := by
      have h1 : d.pixelsPerRow * 1 ≤ d.pixelsPerRow * d.numRows :=
        Nat.mul_le_mul_left _ hR
      omega
    have hP1 : 1 ≤ d.pixelsPerRow := by omega
    have hR65 : d.numRows ≤ 65536 := by
      have h2 : 1 * d.numRows ≤ d.pixelsPerRow * d.numRows := Nat.mul_le_mul_right _ hP1
      omega
    have hx65 : x % 65536 = x := Nat.mod_eq_of_lt (by omega)
    have hy65 : y % 65536 = y := Nat.mod_eq_of_lt (by omega)
    rw [hx65, hy65]
    cases hyr : d.yReversed with
    | false =>
      simp only [hyr, Bool.false_eq_true, if_false]
      obtain ⟨e1, e2⟩ := rowNoWrap d.pixelsPerRow d.numRows x y hfit hx hy
      rw [e1]
      cases hrev : xor d.xReversed (d.alternating && decide (x % 2 = 1)) with
      | false => simp only [hrev, Bool.false_eq_true, if_false]; omega
      | true => simp only [hrev, if_true]; omega
    | true =>
      simp only [hyr, if_true]
      have hy2 : (((d.numRows : ℤ) - 1 - (x : ℤ)) % 65536).toNat = d.numRows - 1 - x := by
        omega
      rw [hy2]
      obtain ⟨e1, e2⟩ := rowNoWrap d.pixelsPerRow d.numRows (d.numRows - 1 - x) y hfit
        (by omega) hy
      rw [e1]
      cases hrev : xor d.xReversed
          (d.alternating && decide ((d.numRows - 1 - x) % 2 = 1)) with
      | false => simp only [hrev, Bool.false_eq_true, if_false]; omega
      | true => simp only [hrev, if_true]; omega

/-- `rowIndex` stays below `pixelsPerRow * numRows`. -/
theorem rowIndex_lt (d : Driver) (X Y : ℕ)
    (hX : X < d.pixelsPerRow) (hY : Y < d.numRows) :
    rowIndex d X Y < d.pixelsPerRow * d.numRows := by
  unfold rowIndex
  set Y2 := if d.yReversed then d.numRows - 1 - Y else Y with hY2
  have hY2lt : Y2 < d.numRows := by rw [hY2]; split <;> omega
  have h1 : (Y2 + 1) * d.pixelsPerRow ≤ d.numRows * d.pixelsPerRow :=
    Nat.mul_le_mul_right _ (by omega)
  have h2 : (Y2 + 1) * d.pixelsPerRow = Y2 * d.pixelsPerRow + d.pixelsPerRow := by ring
  have h3 : d.pixelsPerRow * d.numRows = d.numRows * d.pixelsPerRow := by ring
  split <;> omega

/-- `rowInv` lands on in-range post-swap coordinates. -/
theorem rowInv_mem (d : Driver) (k : ℕ) (hk : k < d.pixelsPerRow * d.numRows) :
    (rowInv d k).1 < d.pixelsPerRow ∧ (rowInv d k).2 < d.numRows := by
  have hP0 : 0 < d.pixelsPerRow := by
    rcases Nat.eq_zero_or_pos d.pixelsPerRow with h | h
    · rw [h, Nat.zero_mul] at hk; omega
    · exact h
  have hR0 : 0 < d.numRows := by
    rcases Nat.eq_zero_or_pos d.numRows with h | h
    · rw [h, Nat.mul_zero] at hk; omega
    · exact h
  have hdiv : k / d.pixelsPerRow < d.numRows := by
    rw [Nat.div_lt_iff_lt_mul hP0]
    have h3 : d.numRows * d.pixelsPerRow = d.pixelsPerRow * d.numRows := by ring
    omega
  have hmod : k % d.pixelsPerRow < d.pixelsPerRow := Nat.mod_lt _ hP0
  unfold rowInv
  constructor
  · dsimp only []
    generalize hq : k / d.pixelsPerRow = q at hdiv ⊢
    generalize hm : k % d.pixelsPerRow = m at hmod ⊢
    split <;> omega
  · dsimp only []
    generalize hq : k / d.pixelsPerRow = q at hdiv ⊢
    split <;> omega

/-- `rowInv` on an explicit row-major value. -/
theorem rowInv_at (d : Driver) (Y2 X2 : ℕ) (hX2 : X2 < d.pixelsPerRow) :
    rowInv d (Y2 * d.pixelsPerRow + X2) =
      (if xor d.xReversed (d.alternating && decide (Y2 % 2 = 1)) then
         d.pixelsPerRow - 1 - X2 else X2,
       if d.yReversed then d.numRows - 1 - Y2 else Y2) := by
  have hP0 : 0 < d.pixelsPerRow := by omega
  have hcomm : Y2 * d.pixelsPerRow + X2 = d.pixelsPerRow * Y2 + X2 := by ring
  have hdiv : (Y2 * d.pixelsPerRow + X2) / d.pixelsPerRow = Y2 := by
    rw [hcomm, Nat.mul_add_div hP0, Nat.div_eq_of_lt hX2, Nat.add_zero]
  have hmod : (Y2 * d.pixelsPerRow + X2) % d.pixelsPerRow = X2 := by
    rw [hcomm, Nat.mul_add_mod, Nat.mod_eq_of_lt hX2]
  unfold rowInv
  rw [hdiv, hmod]

/-- `rowInv` undoes `rowIndex`. -/
theorem rowInv_rowIndex (d : Driver) (X Y : ℕ)
    (hX : X < d.pixelsPerRow) (hY : Y < d.numRows) :
    rowInv d (rowIndex d X Y) = (X, Y) := by
  unfold rowIndex
  rw [rowInv_at d _ _ (by split_ifs <;> omega)]
  cases hyr : d.yReversed <;>
    simp only [hyr, if_true, if_false, Bool.false_eq_true]
  · split_ifs <;> simp only [Prod.mk.injEq, and_true, true_and] <;> omega
  · split_ifs <;> simp only [Prod.mk.injEq, and_true, true_and] <;> omega

/-- `rowIndex` undoes `rowInv`. -/
theorem rowIndex_rowInv (d : Driver) (k : ℕ)
    (hk : k < d.pixelsPerRow * d.numRows) :
    rowIndex d (rowInv d k).1 (rowInv d k).2 = k := by
  have hP0 : 0 < d.pixelsPerRow := by
    rcases Nat.eq_zero_or_pos d.pixelsPerRow with h | h
    · rw [h, Nat.zero_mul] at hk; omega
    · exact h
  have hY2lt : k / d.pixelsPerRow < d.numRows := by
    rw [Nat.div_lt_iff_lt_mul hP0]
    have h3 : d.numRows * d.pixelsPerRow = d.pixelsPerRow * d.numRows := by ring
    omega
  have hX2lt : k % d.pixelsPerRow < d.pixelsPerRow := Nat.mod_lt _ hP0
  have hdm := Nat.div_add_mod k d.pixelsPerRow
  have hcomm : d.pixelsPerRow * (k / d.pixelsPerRow) =
      (k / d.pixelsPerRow) * d.pixelsPerRow := by ring
  unfold rowInv rowIndex
  generalize hq : k / d.pixelsPerRow = q at hY2lt hdm hcomm ⊢
  generalize hm : k % d.pixelsPerRow = m at hX2lt hdm ⊢
  cases hyr : d.yReversed <;>
    simp only [hyr, if_true, if_false, Bool.false_eq_true]
  · split_ifs <;> omega
  · have e : d.numRows - 1 - (d.numRows - 1 - q) = q := by omega
    rw [e]
    split_ifs <;> omega

/-- The logical-to-physical map restricted to in-range coordinates is a
bijection onto `[0, pixelsPerRow * numRows)`, for any flag combination
(as long as the index arithmetic stays below the uint16_t wrap). -/
theorem ledIndex_bijOn (d : Driver) (hfit : d.pixelsPerRow * d.numRows ≤ 65536) :
    Set.BijOn (fun p : ℕ × ℕ => ledIndexFromXY d p.1 p.2)
      {p : ℕ × ℕ | p.1 < getSizeX d ∧ p.2 < getSizeY d}
      (Set.Iio (d.pixelsPerRow * d.numRows)) := by
  have hsz : ∀ p : ℕ × ℕ, p ∈ {p : ℕ × ℕ | p.1 < getSizeX d ∧ p.2 < getSizeY d} →
      (if d.swapXY then p.2 else p.1) < d.pixelsPerRow ∧
      (if d.swapXY then p.1 else p.2) < d.numRows := by
    intro p hp
    obtain ⟨h1, h2⟩ := hp
    unfold getSizeX at h1
    unfold getSizeY at h2
    cases hs : d.swapXY <;>
      simp only [hs, if_true, if_false, Bool.false_eq_true] at h1 h2 ⊢ <;>
      exact ⟨by omega, by omega⟩
  have hinv : Set.InvOn
      (fun k => if d.swapXY then ((rowInv d k).2, (rowInv d k).1) else rowInv d k)
      (fun p : ℕ × ℕ => ledIndexFromXY d p.1 p.2)
      {p : ℕ × ℕ | p.1 < getSizeX d ∧ p.2 < getSizeY d}
      (Set.Iio (d.pixelsPerRow * d.numRows)) := by
    constructor
    · -- LeftInvOn: the inverse recovers every in-range coordinate
      intro p hp
      obtain ⟨hX, hY⟩ := hsz p hp
      dsimp only []
      rw [ledIndexFromXY_eq_rowIndex d p.1 p.2 hfit hp.1 hp.2,
        rowInv_rowIndex d _ _ hX hY]
      cases hs : d.swapXY <;> simp only [hs, if_true, if_false, Bool.false_eq_true]
    · -- RightInvOn: the map recovers every physical index
      intro k hk
      rw [Set.mem_Iio] at hk
      obtain ⟨hX, hY⟩ := rowInv_mem d k hk
      dsimp only []
      cases hs : d.swapXY <;> simp only [hs, if_true, if_false, Bool.false_eq_true]
      · rw [ledIndexFromXY_eq_rowIndex d _ _ hfit
          (by unfold getSizeX; rw [hs]; exact hX) (by unfold getSizeY; rw [hs]; exact hY)]
        simp only [hs, if_false, Bool.false_eq_true]
        exact rowIndex_rowInv d k hk
      · rw [ledIndexFromXY_eq_rowIndex d _ _ hfit
          (by unfold getSizeX; rw [hs]; exact hY) (by unfold getSizeY; rw [hs]; exact hX)]
        simp only [hs, if_true]
        exact rowIndex_rowInv d k hk
  have hmf : Set.MapsTo (fun p : ℕ × ℕ => ledIndexFromXY d p.1 p.2)
      {p : ℕ × ℕ | p.1 < getSizeX d ∧ p.2 < getSizeY d}
      (Set.Iio (d.pixelsPerRow * d.numRows)) := by
    intro p hp
    obtain ⟨hX, hY⟩ := hsz p hp
    rw [Set.mem_Iio]
    dsimp only []
    rw [ledIndexFromXY_eq_rowIndex d p.1 p.2 hfit hp.1 hp.2]
    exact rowIndex_lt d _ _ hX hY
  have hmg : Set.MapsTo
      (fun k => if d.swapXY then ((rowInv d k).2, (rowInv d k).1) else rowInv d k)
      (Set.Iio (d.pixelsPerRow * d.numRows))
      {p : ℕ × ℕ | p.1 < getSizeX d ∧ p.2 < getSizeY d} := by
    intro k hk
    rw [Set.mem_Iio] at hk
    obtain ⟨hX, hY⟩ := rowInv_mem d k hk
    dsimp only []
    cases hs : d.swapXY
    · simp only [hs, Bool.false_eq_true, if_false]
      refine ⟨?_, ?_⟩
      · unfold getSizeX
        simp only [hs, Bool.false_eq_true, if_false]
        exact hX
      · unfold getSizeY
        simp only [hs, Bool.false_eq_true, if_false]
        exact hY
    · simp only [hs, if_true]
      refine ⟨?_, ?_⟩
      · unfold getSizeX
        simp only [hs, if_true]
        exact hY
      · unfold getSizeY
        simp only [hs, if_true]
        exact hX
  exact hinv.bijOn hmf hmg

/-- When `pixelsPerRow` divides a positive `numPixels`, the constructor's
`numRows` makes `pixelsPerRow * numRows = numPixels`. -/
theorem rows_times_cols_of_dvd (t : LedType) (nl ppr : ℕ) (xr alt sw yr : Bool) (lpp : ℕ)
    (hppr : 1 ≤ ppr)
    (hdvd : (mkDriver t nl ppr xr alt sw yr lpp).pixelsPerRow ∣
      (mkDriver t nl ppr xr alt sw yr lpp).numPixels)
    (hpos : 1 ≤ (mkDriver t nl ppr xr alt sw yr lpp).numPixels) :
    (mkDriver t nl ppr xr alt sw yr lpp).pixelsPerRow *
      (mkDriver t nl ppr xr alt sw yr lpp).numRows =
      (mkDriver t nl ppr xr alt sw yr lpp).numPixels := by
  have hppr0 : ¬ ppr = 0 := by omega
  have hP : (mkDriver t nl ppr xr alt sw yr lpp).pixelsPerRow = ppr := by
    simp [mkDriver, hppr0]
  have hR : (mkDriver t nl ppr xr alt sw yr lpp).numRows =
      ((mkDriver t nl ppr xr alt sw yr lpp).numPixels - 1) / ppr + 1 := by
    simp [mkDriver, hppr0]
  rw [hP, hR]
  set np := (mkDriver t nl ppr xr alt sw yr lpp).numPixels with hnp
  rw [hP] at hdvd
  obtain ⟨m, hm⟩ := hdvd
  have hm1 : 1 ≤ m := by
    rcases Nat.eq_zero_or_pos m with h | h
    · rw [h, Nat.mul_zero] at hm; omega
    · exact h
  obtain ⟨m1, rfl⟩ : ∃ m1, m = m1 + 1 := ⟨m - 1, by omega⟩
  have he : np - 1 = ppr * m1 + (ppr - 1) := by
    have h1 : ppr * (m1 + 1) = ppr * m1 + ppr := by ring
    omega
  have hdivv : (np - 1) / ppr = m1 := by
    rw [he, Nat.mul_add_div (by omega), Nat.div_eq_of_lt (by omega), Nat.add_zero]
  rw [hdivv, hm]

/-- The torch configuration with 10 pixels in rows of 4 (numRows = 3):
a valid topology in the claim's sense whose mapping is NOT a bijection
onto [0, numPixels). -/
def tenFour : Driver := mkDriver LedType.ws2812 10 4 false false false false 1

/-- C1 counterexample: for numPixels = 10, pixelsPerRow = 4 (a valid
configuration: numRows = (10-1)/4+1 = 3), the in-range coordinate (2,2)
maps to index 10 ∉ [0, 10), so the restriction of `ledIndexFromXY` to
in-range coordinates is not a bijection onto [0, numPixels). -/
theorem mapping_bijection_counterexample :
    tenFour.numPixels = 10 ∧ tenFour.pixelsPerRow = 4 ∧
    tenFour.numRows = (tenFour.numPixels - 1) / tenFour.pixelsPerRow + 1 ∧
    2 < getSizeX tenFour ∧ 2 < getSizeY tenFour ∧
    ledIndexFromXY tenFour 2 2 = 10 ∧
    ¬ Set.BijOn (fun p : ℕ × ℕ => ledIndexFromXY tenFour p.1 p.2)
      {p : ℕ × ℕ | p.1 < getSizeX tenFour ∧ p.2 < getSizeY tenFour}
      (Set.Iio tenFour.numPixels) := by
  have c1 : tenFour.numPixels = 10 := by decide
  have c2 : tenFour.pixelsPerRow = 4 := by decide
  have c3 : tenFour.numRows = (tenFour.numPixels - 1) / tenFour.pixelsPerRow + 1 := by decide
  have c4 : 2 < getSizeX tenFour := by decide
  have c5 : 2 < getSizeY tenFour := by decide
  have c6 : ledIndexFromXY tenFour 2 2 = 10 := by decide
  refine ⟨c1, c2, c3, c4, c5, c6, ?_⟩
  intro h
  have hmem : ((2, 2) : ℕ × ℕ) ∈
      {p : ℕ × ℕ | p.1 < getSizeX tenFour ∧ p.2 < getSizeY tenFour} :=
    ⟨c4, c5⟩
  have hm := h.mapsTo hmem
  simp only [Set.mem_Iio] at hm
  omega

/-- C1 (amended): for every topology configuration (any flag
combination, pixelsPerRow ≥ 1, numRows = (numPixels-1)/pixelsPerRow+1,
index arithmetic below the uint16_t wrap), `ledIndexFromXY` restricted
to in-range logical coordinates is a bijection onto
[0, pixelsPerRow × numRows); it is a bijection onto [0, numPixels)
exactly in the case that pixelsPerRow divides numPixels (then
pixelsPerRow × numRows = numPixels) — otherwise the in-range coordinates
of the partial last row map to indices ≥ numPixels (see the
counterexample). -/
theorem mapping_bijection (t : LedType) (nl ppr : ℕ) (xr alt sw yr : Bool) (lpp : ℕ)
    (d : Driver) (hd : d = mkDriver t nl ppr xr alt sw yr lpp)
    (hppr : 1 ≤ ppr) (hfit : d.pixelsPerRow * d.numRows ≤ 65536) :
    Set.BijOn (fun p : ℕ × ℕ => ledIndexFromXY d p.1 p.2)
      {p : ℕ × ℕ | p.1 < getSizeX d ∧ p.2 < getSizeY d}
      (Set.Iio (d.pixelsPerRow * d.numRows)) ∧
    (d.pixelsPerRow ∣ d.numPixels → 1 ≤ d.numPixels →
      Set.BijOn (fun p : ℕ × ℕ => ledIndexFromXY d p.1 p.2)
        {p : ℕ × ℕ | p.1 < getSizeX d ∧ p.2 < getSizeY d}
        (Set.Iio d.numPixels)) := by
  refine ⟨ledIndex_bijOn d hfit, fun hdvd hpos => ?_⟩
  have heq : d.pixelsPerRow * d.numRows = d.numPixels := by
    subst hd
    exact rows_times_cols_of_dvd t nl ppr xr alt sw yr lpp hppr hdvd hpos
  rw [← heq]
  exact ledIndex_bijOn d hfit

/-- Witness for the amended C1 on the torch's own configuration
(231 pixels, 11 per row, 21 rows; 11 divides 231). -/
theorem mapping_bijection_witness :
    1 ≤ ledsPerLevel ∧ torchLeds.pixelsPerRow * torchLeds.numRows ≤ 65536 ∧
    torchLeds.pixelsPerRow ∣ torchLeds.numPixels ∧ 1 ≤ torchLeds.numPixels ∧
    Set.BijOn (fun p : ℕ × ℕ => ledIndexFromXY torchLeds p.1 p.2)
      {p : ℕ × ℕ | p.1 < getSizeX torchLeds ∧ p.2 < getSizeY torchLeds}
      (Set.Iio torchLeds.numPixels) := by
  have h := mapping_bijection LedType.ws2812 numLeds ledsPerLevel false false false false 1
    torchLeds rfl (by decide) (by decide)
  exact ⟨by decide, by decide, by decide, by decide, h.2 (by decide) (by decide)⟩

-- ==========================================================================
-- C7: the handleParams parsing policy
-- ==========================================================================

/-- `handleParamsSpec` on text without any `=` leaves the state alone. -/
theorem handleParamsSpec_none (rest : List Char) (st : FirmwareState)
    (h : rest.findIdx? (fun x => x = '=') = none) :
    handleParamsSpec rest st = st := by
  rw [handleParamsSpec]
  split
  · rfl
  · rename_i j heq
    rw [h] at heq
    cases heq

/-- One unfolding of `handleParamsSpec` when the remaining text holds an
`=` at position `j`. -/
theorem handleParamsSpec_some (rest : List Char) (st : FirmwareState) (j : ℕ)
    (h : rest.findIdx? (fun x => x = '=') = some j) :
    handleParamsSpec rest st =
      handleParamsSpec
        (rest.drop (((rest.findIdx? (fun x => x = ',')).getD rest.length) + 1))
        (applyParam (substringC rest 0 j)
          (substringC rest (j + 1) ((rest.findIdx? (fun x => x = ',')).getD rest.length)) st) := by
  conv_lhs => rw [handleParamsSpec]
  split
  · rename_i heq
    rw [h] at heq
    cases heq
  · rename_i j' heq
    rw [h] at heq
    cases heq
    rfl

/-- Dropping before taking, shifted by a common offset `p`. -/
theorem drop_take_shift (l : List Char) (p n m : ℕ) :
    (l.take (p + m)).drop (p + n) = ((l.drop p).take m).drop n := by
  rw [List.drop_take, List.drop_take, List.drop_drop]
  have h1 : p + m - (p + n) = m - n := by omega
  rw [h1]

/-- `String::substring` commutes with shifting both bounds past a
common dropped prefix. -/
theorem substringC_shift (l : List Char) (p a b : ℕ) :
    substringC l (p + a) (p + b) = substringC (l.drop p) a b := by
  unfold substringC
  have h1 : max (p + a) (p + b) = p + max a b := by omega
  have h2 : min (p + a) (p + b) = p + min a b := by omega
  rw [h1, h2, drop_take_shift]

/-- The fueled `handleParams` loop started at position `p` with enough
fuel computes `handleParamsSpec` of the text from `p` on: the loop
position advances past the consumed comma each iteration, and the
`indexOf`/`substring` calls on `command` at offset `p` agree with their
counterparts on `command.drop p`. -/
theorem handleParamsFrom_eq_spec (command : List Char) :
    ∀ fuel p st, command.length ≤ p + fuel →
      handleParamsFrom command fuel p st = handleParamsSpec (command.drop p) st := by
  intro fuel
  induction fuel with
  | zero =>
    intro p st hle
    have hdrop : command.drop p = [] := List.drop_eq_nil_of_le (by omega)
    rw [hdrop]
    exact (handleParamsSpec_none [] st (by simp [List.findIdx?])).symm
  | succ fuel ih =>
    intro p st hle
    rw [handleParamsFrom]
    by_cases hp : p < command.length
    · rw [if_pos hp]
      rcases hfi : (command.drop p).findIdx? (fun x => x = '=') with _ | k
      · have : indexOfFrom command '=' p = none := by
          unfold indexOfFrom
          rw [hfi]
          rfl
        rw [this]
        exact (handleParamsSpec_none _ st hfi).symm
      · have hsome : indexOfFrom command '=' p = some (p + k) := by
          unfold indexOfFrom
          rw [hfi]
          rfl
        have hi : (indexOfFrom command ',' p).getD command.length =
            p + ((command.drop p).findIdx? (fun x => x = ',')).getD (command.drop p).length := by
          unfold indexOfFrom
          rcases hci : (command.drop p).findIdx? (fun x => x = ',') with _ | k'
          · simp [List.length_drop]
            omega
          · simp
        set i' := ((command.drop p).findIdx? (fun x => x = ',')).getD (command.drop p).length
          with hi'
        rw [hsome]
        dsimp only
        rw [hi]
        have hkey : substringC command p (p + k) = substringC (command.drop p) 0 k := by
          have := substringC_shift command p 0 k
          rw [Nat.add_zero] at this
          exact this
        have hval : substringC command (p + k + 1) (p + i') =
            substringC (command.drop p) (k + 1) i' := by
          have := substringC_shift command p (k + 1) i'
          rw [← Nat.add_assoc] at this
          exact this
        rw [hkey, hval]
        have hdd : command.drop (p + i' + 1) = (command.drop p).drop (i' + 1) := by
          rw [List.drop_drop, Nat.add_assoc]
        have := ih (p + i' + 1)
          (applyParam (substringC (command.drop p) 0 k)
            (substringC (command.drop p) (k + 1) i') st) (by omega)
        rw [this, hdd]
        exact (handleParamsSpec_some (command.drop p) st k hfi).symm
    · rw [if_neg hp]
      have hdrop : command.drop p = [] := List.drop_eq_nil_of_le (by omega)
      rw [hdrop]
      exact (handleParamsSpec_none [] st (by simp [List.findIdx?])).symm

/-- C7 (amended): `handleParams` processes key=value pairs left to
right — a recognized key assigns its integer-parsed value (non-numeric
text yielding zero via `atol`), an unknown key changes nothing — but a
pair missing its own `=` does NOT terminate parsing: `indexOf('=', p)`
searches the whole remainder, so parsing stops only when no `=` occurs
anywhere in the remaining string.  A pair without its own `=` instead
contributes everything up to the next `=` (spanning commas) as the key,
and parsing resumes after the comma that follows that `=`; pairs parsed
before remain applied, and later well-formed pairs are still applied
(see the counterexample).  `handleParamsSpec` renders exactly this
policy on the remaining text. -/
theorem handleParams_policy (command : List Char) (st : FirmwareState) :
    handleParams command st = handleParamsSpec command st := by
  unfold handleParams
  have h := handleParamsFrom_eq_spec command (command.length + 1) 0 st (by omega)
  rw [h, List.drop_zero]

set_option maxRecDepth 100000 in
/-- C7 counterexample: in `"mode=2,mode,brightness=7"` the middle pair
`mode` has no `=` of its own, so per the claim parsing should stop there
and `brightness` should keep its default 255.  The code instead takes
the key `"mode,brightness"` (up to the next `=` anywhere), ignores it as
unknown, resumes after the comma at position 11, and applies
`brightness=7`. -/
theorem handleParams_stop_counterexample :
    defaultParams.brightness = 255 ∧
    (handleParams ("mode=2,mode,brightness=7".toList)
        ⟨defaultParams, bootTorchState⟩).params.mode = 2 ∧
    (handleParams ("mode=2,mode,brightness=7".toList)
        ⟨defaultParams, bootTorchState⟩).params.brightness = 7 := by
  refine ⟨by decide, ?_, ?_⟩ <;> decide
